import Mathlib

/-!
Verification development for the Chat-App realtime broker
(`server.js`: socket.io connection handling, room registry, message
history, acknowledgment protocol).

The JavaScript registry is three insertion-ordered `Map`s
(`activeRooms`, `socketRooms`, `roomMessages`) over string keys plus,
per connected socket, the socket.io room set `socket.rooms` (which
socket.io initialises to the singleton containing the socket id and
which `socket.join` / `socket.leave` update).  We embed `Map` as an
association list with JavaScript `Map` semantics (`set` replaces in
place, otherwise appends; `delete` removes) and `Set` as a
duplicate-free list in insertion order.

Exceptions: every protocol handler body sits in a `try`/`catch` whose
`catch` resolves the acknowledgment with a failure code and emits a
`serverError` diagnostic.  The only operations in a handler that can
raise are the outbound emit calls (the registry mutations are plain
map/set operations), so handlers are parameterised by a fault oracle
`fault : Option Nat`: `some n` makes the n-th emit attempt of the
execution throw, `none` is a fault-free run.
-/

namespace ChatApp

/-! ## JavaScript Map / Set embedding -/

/-- Insertion-ordered string-keyed map, as in a JavaScript `Map`. -/
abbrev AList (α : Type) := List (String × α)

def alistGet {α : Type} : AList α → String → Option α
  | [], _ => none
  | (k', v) :: rest, k => if k' = k then some v else alistGet rest k

def alistHas {α : Type} (m : AList α) (k : String) : Bool :=
  (alistGet m k).isSome

/-- JavaScript `Map.set`: replace in place when the key is present,
append otherwise.  (A `Map` never holds a key twice, so replacing the
first occurrence is the faithful reading.) -/
def alistSet {α : Type} : AList α → String → α → AList α
  | [], k, v => [(k, v)]
  | (k', v') :: rest, k, v =>
    if k' = k then (k, v) :: rest else (k', v') :: alistSet rest k v

/-- JavaScript `Map.delete`. -/
def alistDel {α : Type} : AList α → String → AList α
  | [], _ => []
  | (k', v') :: rest, k =>
    if k' = k then alistDel rest k else (k', v') :: alistDel rest k

def keysOf {α : Type} (m : AList α) : List String := m.map (·.1)

/-- JavaScript `Set.add`: no duplicates, insertion order kept. -/
def setAdd (l : List String) (x : String) : List String :=
  if x ∈ l then l else l ++ [x]

/-- JavaScript `Set.delete`. -/
def setDel : List String → String → List String
  | [], _ => []
  | y :: rest, x =>
    if y = x then setDel rest x else y :: setDel rest x

/-- ASCII whitespace recognised by `String.prototype.trim` (space,
tab, line feed, carriage return, vertical tab, form feed). -/
def isWs (ch : Char) : Bool :=
  ch.toNat = 32 ∨ ch.toNat = 9 ∨ ch.toNat = 10 ∨ ch.toNat = 13 ∨
  ch.toNat = 11 ∨ ch.toNat = 12

/-- `String.prototype.trim`: strip leading and trailing whitespace
(structural definition so that concrete instances evaluate). -/
def jsTrim (s : String) : String :=
  ⟨((s.data.dropWhile isWs).reverse.dropWhile isWs).reverse⟩

/-! ## Data model (from `server.js`) -/

/-- A chat message, as built by the `newMessage` handler. -/
structure Message where
  id : String
  roomId : String
  text : String
  senderId : String
  senderName : String
  socketId : String
  time : String
deriving DecidableEq, Repr

/-- A room record, as stored in `activeRooms`. -/
structure Room where
  roomName : String
  members : List String
  createdBy : String
  createdAt : String
deriving DecidableEq, Repr

/-- The full mutable server state: the three registry maps plus the
socket.io per-socket room sets (`socket.rooms`). -/
structure ServerState where
  activeRooms : AList Room
  socketRooms : AList (List String)
  roomMessages : AList (List Message)
  ioRooms : AList (List String)
deriving DecidableEq, Repr

/-- The registry proper: `activeRooms`, `socketRooms`, `roomMessages`. -/
structure Registry where
  activeRooms : AList Room
  socketRooms : AList (List String)
  roomMessages : AList (List Message)
deriving DecidableEq, Repr

def registryOf (st : ServerState) : Registry :=
  ⟨st.activeRooms, st.socketRooms, st.roomMessages⟩

def emptyState : ServerState := ⟨[], [], [], []⟩

def sRoomsOf (st : ServerState) (c : String) : List String :=
  (alistGet st.socketRooms c).getD []

def ioSetOf (st : ServerState) (c : String) : List String :=
  (alistGet st.ioRooms c).getD []

def membersAt (st : ServerState) (r : String) : List String :=
  match alistGet st.activeRooms r with
  | none => []
  | some room => room.members

/-- socket.io connection establishment: the socket joins the room named
by its own id, so `socket.rooms` starts as that singleton. -/
def connectSock (sid : String) (st : ServerState) : ServerState :=
  { st with ioRooms := alistSet st.ioRooms sid [sid] }

/-- `socket.join(roomId)`. -/
def ioJoin (sid roomId : String) (st : ServerState) : ServerState :=
  { st with ioRooms := alistSet st.ioRooms sid (setAdd (ioSetOf st sid) roomId) }

/-- `socket.leave(roomId)`. -/
def ioLeave (sid roomId : String) (st : ServerState) : ServerState :=
  { st with ioRooms := alistSet st.ioRooms sid (setDel (ioSetOf st sid) roomId) }

/-- `addMember(roomId, socketId)` from `server.js`. -/
def addMember (roomId socketId : String) (st : ServerState) : ServerState :=
  match alistGet st.activeRooms roomId with
  | none => st
  | some room =>
    let room2 := { room with members := setAdd room.members socketId }
    let st1 := { st with activeRooms := alistSet st.activeRooms roomId room2 }
    let s2 := setAdd ((alistGet st1.socketRooms socketId).getD []) roomId
    { st1 with socketRooms := alistSet st1.socketRooms socketId s2 }

/-- Second half of `removeMember`: the `socketRooms` reverse-index
cleanup (runs after the `roomClosed` broadcast in the source). -/
def rmStage2 (roomId socketId : String) (st : ServerState) : ServerState :=
  match alistGet st.socketRooms socketId with
  | none => st
  | some l =>
    let l2 := setDel l roomId
    if l2 = [] then { st with socketRooms := alistDel st.socketRooms socketId }
    else { st with socketRooms := alistSet st.socketRooms socketId l2 }

/-- First half of `removeMember`: membership deletion and
destroy-if-empty on `activeRooms` / `roomMessages`.  The returned flag
records whether the room was destroyed (the source emits `roomClosed`
at that point). -/
def rmStage1 (roomId socketId : String) (st : ServerState) : ServerState × Bool :=
  match alistGet st.activeRooms roomId with
  | none => (st, false)
  | some room =>
    let m := setDel room.members socketId
    if m = [] then
      ({ st with activeRooms := alistDel st.activeRooms roomId,
                 roomMessages := alistDel st.roomMessages roomId }, true)
    else
      let room2 := { room with members := m }
      ({ st with activeRooms := alistSet st.activeRooms roomId room2 }, false)

/-- `removeMember(roomId, socketId)` from `server.js` (fault-free form:
both stages; the flag is whether the room was destroyed).  When the
room id is unknown the function returns immediately, skipping the
reverse-index cleanup as well. -/
def removeMember (roomId socketId : String) (st : ServerState) : ServerState × Bool :=
  match alistGet st.activeRooms roomId with
  | none => (st, false)
  | some _ =>
    let (st1, d) := rmStage1 roomId socketId st
    (rmStage2 roomId socketId st1, d)

def getRoomMessages (st : ServerState) (roomId : String) : List Message :=
  (alistGet st.roomMessages roomId).getD []

/-- `addMessageToRoom(roomId, message)`: push, then keep only the last
100 entries (`messages.slice(-100)`). -/
def addMessageToRoom (roomId : String) (m : Message) (st : ServerState) : ServerState :=
  let pushed := getRoomMessages st roomId ++ [m]
  let final := if 100 < pushed.length then pushed.drop (pushed.length - 100) else pushed
  { st with roomMessages := alistSet st.roomMessages roomId final }

/-! ## Protocol events, acknowledgments, handler outcomes -/

/-- Outbound events.  `roomUsers`, `userJoined`, `userLeft`,
`roomClosed` and `getLatestMessage` are room broadcasts
(`io.to(roomId).emit`); the others go to a single socket. -/
inductive EmitEv
  | connected (sid userId : String)
  | roomCreated (sid roomId roomName : String)
  | roomUsers (roomId : String) (count : Nat)
  | roomJoined (sid roomId roomName : String) (messages : List Message)
  | userJoined (roomId sid userName : String)
  | userLeft (roomId sid userName : String)
  | roomClosed (roomId : String)
  | getLatestMessage (roomId : String) (m : Message)
  | roomError (sid msg : String)
  | serverError (sid msg : String)
deriving DecidableEq, Repr

def isRoomBroadcast : EmitEv → Bool
  | .roomUsers _ _ => true
  | .userJoined _ _ _ => true
  | .userLeft _ _ _ => true
  | .roomClosed _ => true
  | .getLatestMessage _ _ => true
  | _ => false

/-- Acknowledgment values: `{ok:true, ...}` per operation, or
`{ok:false, error:code}`. -/
inductive Ack
  | okCreate (roomId roomName : String)
  | okJoin (roomId : String)
  | okLeave (roomId : String)
  | okMsg (m : Message)
  | errA (code : String)
deriving DecidableEq, Repr

/-- Result of one handler execution: final state, emitted events in
order, and the acknowledgment invocations in order. -/
structure HOut where
  st : ServerState
  emits : List EmitEv
  acks : List Ack
deriving DecidableEq, Repr

/-- One emit attempt under the fault oracle.  During the `try` block
the number of emit attempts so far equals the length of the
accumulated emit list, so the oracle fires on attempt index
`emits.length`; `none` means the attempt threw. -/
def tryEmit (fault : Option Nat) (emits : List EmitEv) (e : EmitEv) :
    Option (List EmitEv) :=
  if fault = some emits.length then none else some (emits ++ [e])

/-- The `catch` block shared by all four handlers: failure
acknowledgment (when a callback was supplied) plus a `serverError`
diagnostic to the originating socket. -/
def catchOut (hasAck : Bool) (sid code msg : String) (st : ServerState)
    (emits : List EmitEv) (acks : List Ack) : HOut :=
  { st := st,
    emits := emits ++ [.serverError sid msg],
    acks := acks ++ (if hasAck then [.errA code] else []) }

def ackIf (hasAck : Bool) (a : Ack) : List Ack :=
  if hasAck then [a] else []

/-! ## Handlers (from `server.js`) -/

/-- JavaScript `a || b` on a possibly-absent string (absent, null and
the empty string are falsy). -/
def jsOrStr (o : Option String) (d : String) : String :=
  match o with
  | none => d
  | some s => if s = "" then d else s

/-- The default room name: `socket.userName` followed by
an apostrophe and `s Room`. -/
def defaultRoomName (userName : String) : String :=
  userName ++ String.mk [Char.ofNat 39] ++ "s Room"

/-- The `createRoom` handler.  `freshId` stands for the `uuidv4()`
result and `now` for `new Date()`. -/
def createRoom (fault : Option Nat) (hasAck : Bool)
    (sid userId userName : String) (roomNameArg : Option String)
    (freshId now : String) (st : ServerState) : HOut :=
  let roomName := jsTrim (jsOrStr roomNameArg (defaultRoomName userName))
  let roomId := freshId
  let newRoom : Room := ⟨roomName, [], userId, now⟩
  let st1 := { st with activeRooms := alistSet st.activeRooms roomId newRoom }
  let st2 := ioJoin sid roomId st1
  let st3 := addMember roomId sid st2
  match tryEmit fault [] (.roomCreated sid roomId roomName) with
  | none => catchOut hasAck sid "CREATE_ROOM_FAILED" "Could not create room" st3 [] []
  | some e1 =>
    let acks1 := ackIf hasAck (.okCreate roomId roomName)
    match alistGet st3.activeRooms roomId with
    | none => { st := st3, emits := e1, acks := acks1 }
    | some room =>
      match tryEmit fault e1 (.roomUsers roomId room.members.length) with
      | none => catchOut hasAck sid "CREATE_ROOM_FAILED" "Could not create room" st3 e1 acks1
      | some e2 => { st := st3, emits := e2, acks := acks1 }

/-- The `joinRoom` payload: a bare value or an object carrying
`roomId` (the handler unwraps objects). -/
inductive JoinArg
  | jstr (s : String)
  | jobj (o : Option String)
  | jother
deriving DecidableEq, Repr

/-- Payload normalisation at the top of `joinRoom`: unwrap an object,
then require a truthy string. -/
def joinRoomIdOf : JoinArg → Option String
  | .jstr s => if s = "" then none else some s
  | .jobj o =>
    match o with
    | none => none
    | some s => if s = "" then none else some s
  | .jother => none

/-- The `joinRoom` handler. -/
def joinRoom (fault : Option Nat) (hasAck : Bool) (sid userName : String)
    (arg : JoinArg) (st : ServerState) : HOut :=
  match joinRoomIdOf arg with
  | none =>
    let acks := ackIf hasAck (.errA "INVALID_ROOM_ID")
    match tryEmit fault [] (.roomError sid "Invalid room id") with
    | none => catchOut hasAck sid "JOIN_ROOM_FAILED" "Could not join room" st [] acks
    | some e1 => { st := st, emits := e1, acks := acks }
  | some roomId =>
    match alistGet st.activeRooms roomId with
    | none =>
      let acks := ackIf hasAck (.errA "ROOM_NOT_FOUND")
      match tryEmit fault [] (.roomError sid "Room not found") with
      | none => catchOut hasAck sid "JOIN_ROOM_FAILED" "Could not join room" st [] acks
      | some e1 => { st := st, emits := e1, acks := acks }
    | some _ =>
      let st1 := ioJoin sid roomId st
      let st2 := addMember roomId sid st1
      let room := (alistGet st2.activeRooms roomId).getD ⟨"", [], "", ""⟩
      match tryEmit fault [] (.roomJoined sid roomId room.roomName (getRoomMessages st2 roomId)) with
      | none => catchOut hasAck sid "JOIN_ROOM_FAILED" "Could not join room" st2 [] []
      | some e1 =>
        match tryEmit fault e1 (.userJoined roomId sid userName) with
        | none => catchOut hasAck sid "JOIN_ROOM_FAILED" "Could not join room" st2 e1 []
        | some e2 =>
          match alistGet st2.activeRooms roomId with
          | none => { st := st2, emits := e2, acks := ackIf hasAck (.okJoin roomId) }
          | some room2 =>
            match tryEmit fault e2 (.roomUsers roomId room2.members.length) with
            | none => catchOut hasAck sid "JOIN_ROOM_FAILED" "Could not join room" st2 e2 []
            | some e3 => { st := st2, emits := e3, acks := ackIf hasAck (.okJoin roomId) }

/-- Tail of `leaveRoom` after `removeMember`: `userLeft` broadcast,
`emitRoomUsers`, success acknowledgment. -/
def leaveRoomTail (fault : Option Nat) (hasAck : Bool)
    (sid userName roomId : String) (st : ServerState)
    (emits : List EmitEv) : HOut :=
  match tryEmit fault emits (.userLeft roomId sid userName) with
  | none => catchOut hasAck sid "LEAVE_ROOM_FAILED" "Could not leave room" st emits []
  | some e1 =>
    match alistGet st.activeRooms roomId with
    | none => { st := st, emits := e1, acks := ackIf hasAck (.okLeave roomId) }
    | some room =>
      match tryEmit fault e1 (.roomUsers roomId room.members.length) with
      | none => catchOut hasAck sid "LEAVE_ROOM_FAILED" "Could not leave room" st e1 []
      | some e2 => { st := st, emits := e2, acks := ackIf hasAck (.okLeave roomId) }

/-- The `leaveRoom` handler.  The membership guard is
`socket.rooms.has(roomId)`, i.e. the socket.io room set; the
`roomClosed` broadcast sits inside `removeMember` between the
`activeRooms` deletion and the reverse-index cleanup. -/
def leaveRoom (fault : Option Nat) (hasAck : Bool) (sid userName : String)
    (ridArg : Option String) (st : ServerState) : HOut :=
  let rid := ridArg.getD ""
  if rid = "" ∨ rid ∉ ioSetOf st sid then
    { st := st, emits := [], acks := ackIf hasAck (.errA "NOT_IN_ROOM") }
  else
    let st1 := ioLeave sid rid st
    match alistGet st1.activeRooms rid with
    | none => leaveRoomTail fault hasAck sid userName rid st1 []
    | some room =>
      let m := setDel room.members sid
      if m = [] then
        let st2 := { st1 with activeRooms := alistDel st1.activeRooms rid,
                              roomMessages := alistDel st1.roomMessages rid }
        match tryEmit fault [] (.roomClosed rid) with
        | none => catchOut hasAck sid "LEAVE_ROOM_FAILED" "Could not leave room" st2 [] []
        | some e1 => leaveRoomTail fault hasAck sid userName rid (rmStage2 rid sid st2) e1
      else
        let room2 := { room with members := m }
        let st2 := { st1 with activeRooms := alistSet st1.activeRooms rid room2 }
        leaveRoomTail fault hasAck sid userName rid (rmStage2 rid sid st2) []

/-- The `newMessage` payload: `room` / `roomId` for the target and
`newMessage` / `text` for the body. -/
structure MsgPayload where
  room : Option String
  roomId : Option String
  newMessage : Option String
  text : Option String
deriving DecidableEq, Repr

/-- `payload.room || payload.roomId` (falsy-or on strings). -/
def msgRoomId (p : MsgPayload) : Option String :=
  match p.room with
  | some s => if s = "" then p.roomId else some s
  | none => p.roomId

/-- `(payload.newMessage ?? payload.text ?? "").toString().trim()`
(nullish coalescing, then trim). -/
def msgText (p : MsgPayload) : String :=
  jsTrim
    (match p.newMessage with
     | some s => s
     | none => p.text.getD "")

/-- The `newMessage` handler.  `msgId` stands for `uuidv4()` and `now`
for `new Date().toISOString()`.  As in the source, the membership
check is `socket.rooms.has(roomId)`. -/
def newMessage (fault : Option Nat) (hasAck : Bool)
    (sid userId userName msgId now : String) (p : MsgPayload)
    (st : ServerState) : HOut :=
  let text := msgText p
  let ridOpt := msgRoomId p
  if ridOpt = none ∨ ridOpt = some "" then
    let acks := ackIf hasAck (.errA "INVALID_ROOM_ID")
    match tryEmit fault [] (.roomError sid "Invalid room id") with
    | none => catchOut hasAck sid "SEND_MESSAGE_FAILED" "Could not send message" st [] acks
    | some e1 => { st := st, emits := e1, acks := acks }
  else
    let rid := ridOpt.getD ""
    if rid ∉ ioSetOf st sid then
      let acks := ackIf hasAck (.errA "NOT_IN_ROOM")
      match tryEmit fault [] (.roomError sid "You are not in this room") with
      | none => catchOut hasAck sid "SEND_MESSAGE_FAILED" "Could not send message" st [] acks
      | some e1 => { st := st, emits := e1, acks := acks }
    else if text = "" then
      { st := st, emits := [], acks := ackIf hasAck (.errA "EMPTY_MESSAGE") }
    else
      let m : Message :=
        ⟨msgId, rid, text, userId, jsOrStr (some userName) "Anonymous", sid, now⟩
      let st1 := addMessageToRoom rid m st
      match tryEmit fault [] (.getLatestMessage rid m) with
      | none => catchOut hasAck sid "SEND_MESSAGE_FAILED" "Could not send message" st1 [] []
      | some e1 => { st := st1, emits := e1, acks := ackIf hasAck (.okMsg m) }

/-- The loop body of the `disconnect` handler: `removeMember`, then the
`userLeft` broadcast and `emitRoomUsers`, over the snapshot of the
rooms indexed for the socket. -/
def disconnectLoop (sid userName : String) (rooms : List String)
    (st : ServerState) (emits : List EmitEv) : ServerState × List EmitEv :=
  match rooms with
  | [] => (st, emits)
  | rid :: rest =>
    let r1 := removeMember rid sid st
    let e1 := if r1.2 then emits ++ [EmitEv.roomClosed rid] else emits
    let e2 := e1 ++ [EmitEv.userLeft rid sid userName]
    let e3 :=
      match alistGet r1.1.activeRooms rid with
      | none => e2
      | some room => e2 ++ [EmitEv.roomUsers rid room.members.length]
    disconnectLoop sid userName rest r1.1 e3

/-- The `disconnect` handler: enumerate the rooms indexed for this
socket, run the leave algorithm for each, erase the reverse-index
entry; socket.io additionally discards the dead socket and its
`socket.rooms` set. -/
def disconnect (sid userName : String) (st : ServerState) :
    ServerState × List EmitEv :=
  let joined := (alistGet st.socketRooms sid).getD []
  let r := disconnectLoop sid userName joined st []
  ({ r.1 with socketRooms := alistDel r.1.socketRooms sid,
              ioRooms := alistDel r.1.ioRooms sid }, r.2)

/-! ## Derived notions used by the specification claims -/

/-- The last `n` elements of a list (`slice(-n)` on a long list). -/
def lastN {α : Type} (n : Nat) (l : List α) : List α :=
  l.drop (l.length - n)

/-- No event in the list is a room broadcast. -/
def noRoomBroadcast (l : List EmitEv) : Prop :=
  ∀ e ∈ l, isRoomBroadcast e = false

/-- The room record stored by `createRoom` before the creator is added. -/
def createdRoom (uid uname now : String) (arg : Option String) : Room :=
  ⟨jsTrim (jsOrStr arg (defaultRoomName uname)), [], uid, now⟩

/-- Net state change of a successful `joinRoom`:
`socket.join` then `addMember`. -/
def joinState (sid rid : String) (st : ServerState) : ServerState :=
  addMember rid sid (ioJoin sid rid st)

/-- Net state change of `createRoom`: store the fresh room, then join. -/
def createState (sid uid uname : String) (arg : Option String)
    (fid now : String) (st : ServerState) : ServerState :=
  joinState sid fid
    { st with activeRooms := alistSet st.activeRooms fid (createdRoom uid uname now arg) }

/-- Net state change of a successful `leaveRoom`:
`socket.leave` then the full `removeMember`. -/
def leaveState (sid rid : String) (st : ServerState) : ServerState :=
  (removeMember rid sid (ioLeave sid rid st)).1

/-- `activeRooms` component of `removeMember`. -/
def rmA (r c : String) (a : AList Room) : AList Room :=
  match alistGet a r with
  | none => a
  | some room =>
    if setDel room.members c = [] then alistDel a r
    else alistSet a r { room with members := setDel room.members c }

/-- `roomMessages` component of `removeMember` (`a` is the room map
before the call, which decides the branch). -/
def rmM (r c : String) (a : AList Room) (msgs : AList (List Message)) :
    AList (List Message) :=
  match alistGet a r with
  | none => msgs
  | some room => if setDel room.members c = [] then alistDel msgs r else msgs

/-- The reverse-index update performed by `removeMember`. -/
def sTrans (r c : String) (s : AList (List String)) : AList (List String) :=
  match alistGet s c with
  | none => s
  | some l =>
    if setDel l r = [] then alistDel s c else alistSet s c (setDel l r)

/-- `socketRooms` component of `removeMember` (skipped entirely when
the room is unknown). -/
def rmS (r c : String) (a : AList Room) (s : AList (List String)) :
    AList (List String) :=
  match alistGet a r with
  | none => s
  | some _ => sTrans r c s

/-- State component of the disconnect loop: fold `removeMember` over
the snapshot of indexed rooms. -/
def foldRM (sid : String) (rooms : List String) (st : ServerState) : ServerState :=
  rooms.foldl (fun s r => (removeMember r sid s).1) st

/-- Iterated net `leaveRoom` state change over a list of rooms: like
the disconnect loop, but with the `socket.leave` of each room included. -/
def foldLeave (sid : String) (rooms : List String) (st : ServerState) : ServerState :=
  match rooms with
  | [] => st
  | r :: rest => foldLeave sid rest (leaveState sid r st)

/-- One inbound `newMessage` request: sender context plus payload. -/
structure Send where
  sid : String
  userId : String
  userName : String
  msgId : String
  now : String
  p : MsgPayload

/-- Run a sequence of `newMessage` requests (fault-free, each with an
acknowledgment callback). -/
def runSends (sends : List Send) (st : ServerState) : ServerState :=
  sends.foldl
    (fun s q => (newMessage none true q.sid q.userId q.userName q.msgId q.now q.p s).st) st

/-- The message record a successful `newMessage` stores for `rid`. -/
def sentMessage (rid : String) (q : Send) : Message :=
  ⟨q.msgId, rid, msgText q.p, q.userId, jsOrStr (some q.userName) "Anonymous", q.sid, q.now⟩

/-- Registry consistency invariant, maintained by every fault-free
operation: keys of the four maps are duplicate-free; member sets and
room sets are duplicate-free; rooms have non-empty member sets and
members are reverse-indexed; reverse-index entries are non-empty,
point to rooms that exist and contain the socket, and are covered by
the socket.io room set; the socket.io room set holds only the socket
id itself and genuine memberships. -/
def Inv (st : ServerState) : Prop :=
  (keysOf st.activeRooms).Nodup ∧
  (keysOf st.socketRooms).Nodup ∧
  (keysOf st.roomMessages).Nodup ∧
  (keysOf st.ioRooms).Nodup ∧
  (∀ p ∈ st.activeRooms, p.2.members.Nodup ∧ p.2.members ≠ [] ∧
    ∀ c ∈ p.2.members, p.1 ∈ sRoomsOf st c) ∧
  (∀ q ∈ st.socketRooms, q.2.Nodup ∧ q.2 ≠ [] ∧
    ∀ r ∈ q.2, q.1 ∈ membersAt st r ∧ r ∈ ioSetOf st q.1) ∧
  (∀ q ∈ st.ioRooms, q.2.Nodup ∧ ∀ r ∈ q.2, r = q.1 ∨ r ∈ sRoomsOf st q.1)

instance instDecInv (st : ServerState) : Decidable (Inv st) := by
  unfold Inv
  infer_instance

/-- States reachable from the empty registry by fault-free complete
handler executions.  `connect` requires a fresh socket id (socket.io
never reuses a live id); `create` requires the generated uuid to be
fresh. -/
inductive Reachable : ServerState → Prop
  | init : Reachable emptyState
  | connect (st : ServerState) (sid : String) : Reachable st →
      alistGet st.ioRooms sid = none → Reachable (connectSock sid st)
  | create (st : ServerState) (hasAck : Bool)
      (sid userId userName freshId now : String) (roomNameArg : Option String) :
      Reachable st → alistGet st.activeRooms freshId = none →
      alistGet st.roomMessages freshId = none →
      Reachable (createRoom none hasAck sid userId userName roomNameArg freshId now st).st
  | join (st : ServerState) (hasAck : Bool) (sid userName : String) (arg : JoinArg) :
      Reachable st → Reachable (joinRoom none hasAck sid userName arg st).st
  | leave (st : ServerState) (hasAck : Bool) (sid userName : String)
      (ridArg : Option String) :
      Reachable st → Reachable (leaveRoom none hasAck sid userName ridArg st).st
  | message (st : ServerState) (hasAck : Bool)
      (sid userId userName msgId now : String) (p : MsgPayload) :
      Reachable st → Reachable (newMessage none hasAck sid userId userName msgId now p st).st
  | disconnectStep (st : ServerState) (sid userName : String) :
      Reachable st → Reachable (disconnect sid userName st).1

/-! ## Concrete states for witnesses and counterexamples -/

/-- Socket `A` connected, nothing else. -/
def stWA : ServerState := connectSock "A" emptyState

/-- `A` has created room `R1`. -/
def stW1 : ServerState := (createRoom none true "A" "u1" "Alice" none "R1" "t0" stWA).st

/-- Socket `B` connected as well. -/
def stWB : ServerState := connectSock "B" stW1

/-- `B` has joined `R1` too. -/
def stW2 : ServerState := (joinRoom none true "B" "Bob" (JoinArg.jstr "R1") stWB).st

/-- The record stored for `R1` in `stW2`. -/
def roomW1 : Room := ⟨jsTrim (defaultRoomName "Alice"), ["A", "B"], "u1", "t0"⟩


/-! ## Association-list lemmas -/

@[simp] theorem keysOf_nil {α : Type} : keysOf ([] : AList α) = [] := rfl

@[simp] theorem keysOf_cons {α : Type} (k : String) (v : α) (m : AList α) :
    keysOf ((k, v) :: m) = k :: keysOf m := rfl

theorem mem_keysOf {α : Type} {m : AList α} {p : String × α} (hp : p ∈ m) :
    p.1 ∈ keysOf m := List.mem_map_of_mem _ hp

@[simp] theorem alistGet_nil {α : Type} (k : String) :
    alistGet ([] : AList α) k = none := rfl

theorem alistGet_cons {α : Type} (k' : String) (v : α) (rest : AList α) (k : String) :
    alistGet ((k', v) :: rest) k = if k' = k then some v else alistGet rest k := rfl

@[simp] theorem alistGet_set_self {α : Type} (m : AList α) (k : String) (v : α) :
    alistGet (alistSet m k v) k = some v := by
  induction m with
  | nil => simp [alistSet, alistGet]
  | cons p rest ih =>
    obtain ⟨k0, v0⟩ := p
    by_cases h0 : k0 = k
    · simp [alistSet, alistGet, h0]
    · simp [alistSet, alistGet, h0, ih]

@[simp] theorem alistGet_set_ne {α : Type} (m : AList α) (k k' : String) (v : α)
    (h : k' ≠ k) : alistGet (alistSet m k v) k' = alistGet m k' := by
  have hk : ¬ (k = k') := fun he => h he.symm
  induction m with
  | nil => simp [alistSet, alistGet, hk]
  | cons p rest ih =>
    obtain ⟨k0, v0⟩ := p
    by_cases h0 : k0 = k
    · subst h0
      simp [alistSet, alistGet, hk]
    · simp [alistSet, alistGet, h0, ih]

@[simp] theorem alistGet_del_self {α : Type} (m : AList α) (k : String) :
    alistGet (alistDel m k) k = none := by
  induction m with
  | nil => simp [alistDel]
  | cons p rest ih =>
    obtain ⟨k0, v0⟩ := p
    by_cases h0 : k0 = k
    · simp [alistDel, h0, ih]
    · simp [alistDel, alistGet, h0, ih]

@[simp] theorem alistGet_del_ne {α : Type} (m : AList α) (k k' : String)
    (h : k' ≠ k) : alistGet (alistDel m k) k' = alistGet m k' := by
  induction m with
  | nil => simp [alistDel]
  | cons p rest ih =>
    obtain ⟨k0, v0⟩ := p
    by_cases h0 : k0 = k
    · have hk0 : ¬ (k0 = k') := fun he => h (he ▸ h0)
      rw [alistDel, if_pos h0, ih, alistGet_cons, if_neg hk0]
    · simp [alistDel, alistGet, h0, ih]

theorem alistGet_eq_none_iff {α : Type} (m : AList α) (k : String) :
    alistGet m k = none ↔ ∀ p ∈ m, p.1 ≠ k := by
  induction m with
  | nil => simp
  | cons p rest ih =>
    obtain ⟨k0, v0⟩ := p
    by_cases h0 : k0 = k <;> simp [alistGet, h0, ih]

theorem alistGet_mem {α : Type} {m : AList α} {k : String} {v : α}
    (h : alistGet m k = some v) : (k, v) ∈ m := by
  induction m with
  | nil => simp [alistGet] at h
  | cons p rest ih =>
    obtain ⟨k0, v0⟩ := p
    by_cases h0 : k0 = k
    · subst h0
      rw [alistGet_cons, if_pos rfl] at h
      cases h
      exact List.mem_cons_self _ _
    · rw [alistGet_cons, if_neg h0] at h
      exact List.mem_cons_of_mem _ (ih h)

theorem alistGet_of_mem_nodup {α : Type} {m : AList α} {p : String × α}
    (hnd : (keysOf m).Nodup) (hp : p ∈ m) : alistGet m p.1 = some p.2 := by
  induction m with
  | nil => simp at hp
  | cons q rest ih =>
    obtain ⟨k0, v0⟩ := q
    rw [keysOf_cons, List.nodup_cons] at hnd
    rcases List.mem_cons.mp hp with h | h
    · subst h
      simp [alistGet]
    · have hne : k0 ≠ p.1 := by
        intro he
        exact hnd.1 (he ▸ mem_keysOf h)
      rw [alistGet_cons, if_neg hne]
      exact ih hnd.2 h

theorem alistSet_eq_of_get {α : Type} {m : AList α} {k : String} {v : α}
    (h : alistGet m k = some v) : alistSet m k v = m := by
  induction m with
  | nil => simp [alistGet] at h
  | cons p rest ih =>
    obtain ⟨k0, v0⟩ := p
    by_cases h0 : k0 = k
    · subst h0
      rw [alistGet_cons, if_pos rfl] at h
      cases h
      simp [alistSet]
    · rw [alistGet_cons, if_neg h0] at h
      simp [alistSet, h0, ih h]

theorem alistDel_eq_of_none {α : Type} {m : AList α} {k : String}
    (h : alistGet m k = none) : alistDel m k = m := by
  induction m with
  | nil => simp [alistDel]
  | cons p rest ih =>
    obtain ⟨k0, v0⟩ := p
    by_cases h0 : k0 = k
    · subst h0
      rw [alistGet_cons, if_pos rfl] at h
      cases h
    · rw [alistGet_cons, if_neg h0] at h
      simp [alistDel, h0, ih h]

theorem alistDel_sublist {α : Type} (m : AList α) (k : String) :
    List.Sublist (alistDel m k) m := by
  induction m with
  | nil => simp [alistDel]
  | cons p rest ih =>
    obtain ⟨k0, v0⟩ := p
    by_cases h0 : k0 = k
    · rw [alistDel, if_pos h0]
      exact ih.cons _
    · rw [alistDel, if_neg h0]
      exact ih.cons₂ _

theorem mem_alistDel {α : Type} {m : AList α} {k : String} {p : String × α} :
    p ∈ alistDel m k ↔ p ∈ m ∧ p.1 ≠ k := by
  induction m with
  | nil => simp [alistDel]
  | cons q rest ih =>
    obtain ⟨k0, v0⟩ := q
    by_cases h0 : k0 = k
    · subst h0
      rw [alistDel, if_pos rfl]
      constructor
      · intro h
        exact ⟨List.mem_cons_of_mem _ (ih.mp h).1, (ih.mp h).2⟩
      · rintro ⟨h1, h2⟩
        rcases List.mem_cons.mp h1 with h | h
        · exact absurd (by rw [h]) h2
        · exact ih.mpr ⟨h, h2⟩
    · rw [alistDel, if_neg h0]
      constructor
      · intro h
        rcases List.mem_cons.mp h with h | h
        · subst h
          exact ⟨List.mem_cons_self _ _, h0⟩
        · exact ⟨List.mem_cons_of_mem _ (ih.mp h).1, (ih.mp h).2⟩
      · rintro ⟨h1, h2⟩
        rcases List.mem_cons.mp h1 with h | h
        · subst h
          exact List.mem_cons_self _ _
        · exact List.mem_cons_of_mem _ (ih.mpr ⟨h, h2⟩)

theorem keysOf_del_sublist {α : Type} (m : AList α) (k : String) :
    List.Sublist (keysOf (alistDel m k)) (keysOf m) :=
  List.Sublist.map _ (alistDel_sublist m k)

theorem nodup_keys_del {α : Type} {m : AList α} (k : String)
    (h : (keysOf m).Nodup) : (keysOf (alistDel m k)).Nodup :=
  (keysOf_del_sublist m k).nodup h

theorem alistHas_iff_mem_keys {α : Type} (m : AList α) (k : String) :
    alistHas m k = true ↔ k ∈ keysOf m := by
  unfold alistHas
  cases h : alistGet m k with
  | none =>
    rw [alistGet_eq_none_iff] at h
    simp only [Option.isSome_none, Bool.false_eq_true, false_iff]
    intro hk
    obtain ⟨p, hp, hpk⟩ := List.mem_map.mp hk
    exact absurd hpk (h p hp)
  | some v =>
    simp only [Option.isSome_some, true_iff]
    exact mem_keysOf (alistGet_mem h)

theorem keysOf_set_of_has {α : Type} {m : AList α} {k : String} (v : α)
    (h : alistHas m k = true) : keysOf (alistSet m k v) = keysOf m := by
  induction m with
  | nil => simp [alistHas, alistGet] at h
  | cons p rest ih =>
    obtain ⟨k0, v0⟩ := p
    by_cases h0 : k0 = k
    · subst h0
      simp [alistSet]
    · rw [alistHas, alistGet_cons, if_neg h0] at h
      rw [alistSet, if_neg h0, keysOf_cons, keysOf_cons, ih h]

theorem keysOf_set_of_not {α : Type} {m : AList α} {k : String} (v : α)
    (h : alistHas m k = false) : keysOf (alistSet m k v) = keysOf m ++ [k] := by
  induction m with
  | nil => simp [alistSet, keysOf]
  | cons p rest ih =>
    obtain ⟨k0, v0⟩ := p
    by_cases h0 : k0 = k
    · subst h0
      rw [alistHas, alistGet_cons, if_pos rfl] at h
      simp at h
    · rw [alistHas, alistGet_cons, if_neg h0] at h
      rw [alistSet, if_neg h0, keysOf_cons, keysOf_cons, ih h, List.cons_append]

theorem nodup_keys_set {α : Type} {m : AList α} (k : String) (v : α)
    (h : (keysOf m).Nodup) : (keysOf (alistSet m k v)).Nodup := by
  cases hh : alistHas m k with
  | true =>
    rw [keysOf_set_of_has v hh]
    exact h
  | false =>
    rw [keysOf_set_of_not v hh]
    refine List.Nodup.append h (List.nodup_singleton k) ?_
    intro x hx hk
    rw [List.mem_singleton] at hk
    subst hk
    rw [← alistHas_iff_mem_keys] at hx
    rw [hx] at hh
    cases hh

theorem self_mem_alistSet {α : Type} (m : AList α) (k : String) (v : α) :
    (k, v) ∈ alistSet m k v := by
  induction m with
  | nil => simp [alistSet]
  | cons p rest ih =>
    obtain ⟨k0, v0⟩ := p
    by_cases h0 : k0 = k
    · simp [alistSet, h0]
    · rw [alistSet, if_neg h0]
      exact List.mem_cons_of_mem _ ih

theorem mem_alistSet_of_mem {α : Type} {m : AList α} {p : String × α}
    (k : String) (v : α) (hp : p ∈ m) (hne : p.1 ≠ k) : p ∈ alistSet m k v := by
  induction m with
  | nil => simp at hp
  | cons q rest ih =>
    obtain ⟨k0, v0⟩ := q
    by_cases h0 : k0 = k
    · subst h0
      rw [alistSet, if_pos rfl]
      rcases List.mem_cons.mp hp with h | h
      · exact absurd (by rw [h]) hne
      · exact List.mem_cons_of_mem _ h
    · rw [alistSet, if_neg h0]
      rcases List.mem_cons.mp hp with h | h
      · subst h
        exact List.mem_cons_self _ _
      · exact List.mem_cons_of_mem _ (ih h)

theorem mem_of_mem_alistSet {α : Type} {m : AList α} {k : String} {v : α}
    {p : String × α} (hnd : (keysOf m).Nodup) (hp : p ∈ alistSet m k v) :
    p = (k, v) ∨ (p ∈ m ∧ p.1 ≠ k) := by
  induction m with
  | nil => simpa [alistSet] using hp
  | cons q rest ih =>
    obtain ⟨k0, v0⟩ := q
    rw [keysOf_cons, List.nodup_cons] at hnd
    by_cases h0 : k0 = k
    · subst h0
      rw [alistSet, if_pos rfl] at hp
      rcases List.mem_cons.mp hp with h | h
      · exact .inl h
      · refine .inr ⟨List.mem_cons_of_mem _ h, ?_⟩
        intro he
        exact hnd.1 (he ▸ mem_keysOf h)
    · rw [alistSet, if_neg h0] at hp
      rcases List.mem_cons.mp hp with h | h
      · subst h
        exact .inr ⟨List.mem_cons_self _ _, h0⟩
      · rcases ih hnd.2 h with h1 | h1
        · exact .inl h1
        · exact .inr ⟨List.mem_cons_of_mem _ h1.1, h1.2⟩

/-! ## Set lemmas -/

theorem mem_setAdd {l : List String} {x y : String} :
    x ∈ setAdd l y ↔ x = y ∨ x ∈ l := by
  unfold setAdd
  split
  · rename_i h
    constructor
    · exact fun hx => .inr hx
    · rintro (rfl | hx)
      · exact h
      · exact hx
  · simp [or_comm]

theorem self_mem_setAdd (l : List String) (y : String) : y ∈ setAdd l y :=
  mem_setAdd.mpr (.inl rfl)

theorem mem_setAdd_of_mem {l : List String} {x : String} (y : String)
    (h : x ∈ l) : x ∈ setAdd l y :=
  mem_setAdd.mpr (.inr h)

theorem setAdd_eq_of_mem {l : List String} {y : String} (h : y ∈ l) :
    setAdd l y = l := by
  simp [setAdd, h]

theorem nodup_setAdd {l : List String} (y : String) (h : l.Nodup) :
    (setAdd l y).Nodup := by
  unfold setAdd
  split
  · exact h
  · rename_i hy
    refine List.Nodup.append h (List.nodup_singleton y) ?_
    intro x hx hxy
    rw [List.mem_singleton] at hxy
    subst hxy
    exact hy hx

theorem setDel_sublist (l : List String) (x : String) :
    List.Sublist (setDel l x) l := by
  induction l with
  | nil => simp [setDel]
  | cons y rest ih =>
    by_cases h : y = x
    · rw [setDel, if_pos h]
      exact ih.cons _
    · rw [setDel, if_neg h]
      exact ih.cons₂ _

theorem mem_setDel {l : List String} {x y : String} :
    x ∈ setDel l y ↔ x ∈ l ∧ x ≠ y := by
  induction l with
  | nil => simp [setDel]
  | cons z rest ih =>
    by_cases h : z = y
    · subst h
      rw [setDel, if_pos rfl]
      constructor
      · intro hx
        exact ⟨List.mem_cons_of_mem _ (ih.mp hx).1, (ih.mp hx).2⟩
      · rintro ⟨h1, h2⟩
        rcases List.mem_cons.mp h1 with h | h
        · exact absurd h h2
        · exact ih.mpr ⟨h, h2⟩
    · rw [setDel, if_neg h]
      constructor
      · intro hx
        rcases List.mem_cons.mp hx with h1 | h1
        · subst h1
          exact ⟨List.mem_cons_self _ _, h⟩
        · exact ⟨List.mem_cons_of_mem _ (ih.mp h1).1, (ih.mp h1).2⟩
      · rintro ⟨h1, h2⟩
        rcases List.mem_cons.mp h1 with h3 | h3
        · subst h3
          exact List.mem_cons_self _ _
        · exact List.mem_cons_of_mem _ (ih.mpr ⟨h3, h2⟩)

theorem setDel_eq_of_not_mem {l : List String} {y : String} (h : y ∉ l) :
    setDel l y = l := by
  induction l with
  | nil => simp [setDel]
  | cons z rest ih =>
    have hz : z ≠ y := fun he => h (he ▸ List.mem_cons_self _ _)
    rw [setDel, if_neg hz, ih (fun hm => h (List.mem_cons_of_mem _ hm))]

theorem nodup_setDel {l : List String} (y : String) (h : l.Nodup) :
    (setDel l y).Nodup :=
  (setDel_sublist l y).nodup h

/-! ## History-buffer lemmas -/

theorem lastN_of_le {α : Type} {n : Nat} {l : List α} (h : l.length ≤ n) :
    lastN n l = l := by
  unfold lastN
  rw [Nat.sub_eq_zero_of_le h, List.drop_zero]

theorem length_lastN {α : Type} (n : Nat) (l : List α) :
    (lastN n l).length = min n l.length := by
  unfold lastN
  rw [List.length_drop]
  omega

theorem length_lastN_le {α : Type} (n : Nat) (l : List α) :
    (lastN n l).length ≤ n := by
  rw [length_lastN]
  omega

theorem lastN_append_one {α : Type} (n : Nat) (l : List α) (m : α) :
    lastN n (lastN n l ++ [m]) = lastN n (l ++ [m]) := by
  rcases Nat.eq_zero_or_pos n with hn0 | hnpos
  · subst hn0
    simp [lastN]
  · by_cases hl : l.length ≤ n
    · rw [lastN_of_le hl]
    · have hn : n < l.length := Nat.lt_of_not_le hl
      unfold lastN
      have hlen1 : (List.drop (l.length - n) l).length = n := by
        rw [List.length_drop]
        omega
      have e1 : (List.drop (l.length - n) l ++ [m]).length - n = 1 := by
        rw [List.length_append, hlen1]
        simp
      have e2 : (l ++ [m]).length - n = (l.length - n) + 1 := by
        rw [List.length_append, List.length_singleton]
        omega
      rw [e1, e2]
      rw [List.drop_append_of_le_length (by rw [hlen1]; omega),
          List.drop_append_of_le_length (by omega)]
      rw [List.drop_drop, Nat.add_comm]

theorem getRoomMessages_addMessage_self (roomId : String) (m : Message)
    (st : ServerState) :
    getRoomMessages (addMessageToRoom roomId m st) roomId
      = lastN 100 (getRoomMessages st roomId ++ [m]) := by
  unfold addMessageToRoom getRoomMessages
  simp only [alistGet_set_self, Option.getD_some]
  split
  · rfl
  · rename_i hle
    rw [lastN_of_le (Nat.le_of_not_lt hle)]

theorem getRoomMessages_addMessage_ne (roomId r : String) (m : Message)
    (st : ServerState) (h : r ≠ roomId) :
    getRoomMessages (addMessageToRoom roomId m st) r = getRoomMessages st r := by
  unfold addMessageToRoom getRoomMessages
  simp only [alistGet_set_ne _ _ _ _ h]

theorem addMessageToRoom_fields (roomId : String) (m : Message) (st : ServerState) :
    (addMessageToRoom roomId m st).activeRooms = st.activeRooms ∧
    (addMessageToRoom roomId m st).socketRooms = st.socketRooms ∧
    (addMessageToRoom roomId m st).ioRooms = st.ioRooms := by
  unfold addMessageToRoom
  exact ⟨rfl, rfl, rfl⟩

/-! ## Handler path lemmas (fault-free executions) -/

theorem addMember_eq {st : ServerState} {room : Room} (rid sid : String)
    (h : alistGet st.activeRooms rid = some room) :
    addMember rid sid st =
      { st with
        activeRooms := alistSet st.activeRooms rid { room with members := setAdd room.members sid },
        socketRooms := alistSet st.socketRooms sid (setAdd (sRoomsOf st sid) rid) } := by
  unfold addMember
  rw [h]
  rfl

theorem addMember_none {st : ServerState} (rid sid : String)
    (h : alistGet st.activeRooms rid = none) : addMember rid sid st = st := by
  unfold addMember
  rw [h]

theorem createRoom_none_eq (hasAck : Bool) (sid uid uname : String)
    (arg : Option String) (fid now : String) (st : ServerState) :
    createRoom none hasAck sid uid uname arg fid now st =
      { st := createState sid uid uname arg fid now st,
        emits := [.roomCreated sid fid (jsTrim (jsOrStr arg (defaultRoomName uname))),
                  .roomUsers fid 1],
        acks := ackIf hasAck (.okCreate fid (jsTrim (jsOrStr arg (defaultRoomName uname)))) } := by
  simp [createRoom, createState, joinState, createdRoom, ioJoin, addMember, tryEmit, setAdd,
    sRoomsOf, ioSetOf]

theorem joinRoom_invalid_eq (hasAck : Bool) (sid uname : String) (arg : JoinArg)
    (st : ServerState) (h : joinRoomIdOf arg = none) :
    joinRoom none hasAck sid uname arg st =
      { st := st, emits := [.roomError sid "Invalid room id"],
        acks := ackIf hasAck (.errA "INVALID_ROOM_ID") } := by
  simp [joinRoom, h, tryEmit]

theorem joinRoom_notfound_eq (hasAck : Bool) (sid uname : String) (arg : JoinArg)
    (rid : String) (st : ServerState) (h : joinRoomIdOf arg = some rid)
    (hr : alistGet st.activeRooms rid = none) :
    joinRoom none hasAck sid uname arg st =
      { st := st, emits := [.roomError sid "Room not found"],
        acks := ackIf hasAck (.errA "ROOM_NOT_FOUND") } := by
  simp [joinRoom, h, hr, tryEmit]

theorem joinRoom_success_eq (hasAck : Bool) (sid uname : String) (arg : JoinArg)
    (rid : String) (room : Room) (st : ServerState) (h : joinRoomIdOf arg = some rid)
    (hr : alistGet st.activeRooms rid = some room) :
    joinRoom none hasAck sid uname arg st =
      { st := joinState sid rid st,
        emits := [.roomJoined sid rid room.roomName (getRoomMessages st rid),
                  .userJoined rid sid uname,
                  .roomUsers rid (setAdd room.members sid).length],
        acks := ackIf hasAck (.okJoin rid) } := by
  have hr2 : alistGet (ioJoin sid rid st).activeRooms rid = some room := hr
  have hmem := addMember_eq rid sid hr2
  simp only [joinRoom, h, hr, tryEmit, joinState]
  rw [hmem]
  simp [getRoomMessages, ioJoin, sRoomsOf, ioSetOf]

theorem leaveRoom_notin_eq (hasAck : Bool) (sid uname : String) (ridArg : Option String)
    (st : ServerState) (h : ridArg.getD "" = "" ∨ ridArg.getD "" ∉ ioSetOf st sid) :
    leaveRoom none hasAck sid uname ridArg st =
      { st := st, emits := [], acks := ackIf hasAck (.errA "NOT_IN_ROOM") } := by
  simp only [leaveRoom]
  rw [if_pos h]

theorem leaveRoom_nokey_eq (hasAck : Bool) (sid uname rid : String) (st : ServerState)
    (hne : ¬(rid = "" ∨ rid ∉ ioSetOf st sid))
    (hr : alistGet st.activeRooms rid = none) :
    leaveRoom none hasAck sid uname (some rid) st =
      { st := ioLeave sid rid st, emits := [.userLeft rid sid uname],
        acks := ackIf hasAck (.okLeave rid) } := by
  have hr1 : alistGet (ioLeave sid rid st).activeRooms rid = none := hr
  simp only [leaveRoom, Option.getD_some]
  rw [if_neg hne]
  simp [hr1, leaveRoomTail, tryEmit]

theorem leaveRoom_destroy_eq (hasAck : Bool) (sid uname rid : String) (room : Room)
    (st : ServerState) (hne : ¬(rid = "" ∨ rid ∉ ioSetOf st sid))
    (hr : alistGet st.activeRooms rid = some room)
    (hm : setDel room.members sid = []) :
    leaveRoom none hasAck sid uname (some rid) st =
      { st := rmStage2 rid sid
          { ioLeave sid rid st with
            activeRooms := alistDel (ioLeave sid rid st).activeRooms rid,
            roomMessages := alistDel (ioLeave sid rid st).roomMessages rid },
        emits := [.roomClosed rid, .userLeft rid sid uname],
        acks := ackIf hasAck (.okLeave rid) } := by
  have hr1 : alistGet (ioLeave sid rid st).activeRooms rid = some room := hr
  simp only [leaveRoom, Option.getD_some]
  rw [if_neg hne]
  simp only [hr1, hm, tryEmit, reduceIte, leaveRoomTail]
  have hgone : alistGet (rmStage2 rid sid { ioLeave sid rid st with activeRooms := alistDel (ioLeave sid rid st).activeRooms rid, roomMessages := alistDel (ioLeave sid rid st).roomMessages rid }).activeRooms rid = none := by
    unfold rmStage2
    cases hs : alistGet ({ ioLeave sid rid st with activeRooms := alistDel (ioLeave sid rid st).activeRooms rid, roomMessages := alistDel (ioLeave sid rid st).roomMessages rid } : ServerState).socketRooms sid with
    | none => simp [alistGet_del_self]
    | some l =>
      by_cases h2 : setDel l rid = [] <;> simp [h2, alistGet_del_self]
  simp [hgone, tryEmit]

theorem leaveRoom_keep_eq (hasAck : Bool) (sid uname rid : String) (room : Room)
    (st : ServerState) (hne : ¬(rid = "" ∨ rid ∉ ioSetOf st sid))
    (hr : alistGet st.activeRooms rid = some room)
    (hm : setDel room.members sid ≠ []) :
    leaveRoom none hasAck sid uname (some rid) st =
      { st := rmStage2 rid sid
          { ioLeave sid rid st with
            activeRooms := alistSet (ioLeave sid rid st).activeRooms rid
              { room with members := setDel room.members sid } },
        emits := [.userLeft rid sid uname,
                  .roomUsers rid (setDel room.members sid).length],
        acks := ackIf hasAck (.okLeave rid) } := by
  have hr1 : alistGet (ioLeave sid rid st).activeRooms rid = some room := hr
  simp only [leaveRoom, Option.getD_some]
  rw [if_neg hne]
  simp only [hr1, hm, tryEmit, reduceIte, leaveRoomTail]
  have hstill : alistGet (rmStage2 rid sid { ioLeave sid rid st with activeRooms := alistSet (ioLeave sid rid st).activeRooms rid { room with members := setDel room.members sid } }).activeRooms rid = some { room with members := setDel room.members sid } := by
    unfold rmStage2
    cases hs : alistGet ({ ioLeave sid rid st with activeRooms := alistSet (ioLeave sid rid st).activeRooms rid { room with members := setDel room.members sid } } : ServerState).socketRooms sid with
    | none => simp [alistGet_set_self]
    | some l =>
      by_cases h2 : setDel l rid = [] <;> simp [h2, alistGet_set_self]
  simp [hstill, tryEmit, hm]

theorem newMessage_invalid_eq (hasAck : Bool) (sid uid uname msgId now : String)
    (p : MsgPayload) (st : ServerState)
    (h : msgRoomId p = none ∨ msgRoomId p = some "") :
    newMessage none hasAck sid uid uname msgId now p st =
      { st := st, emits := [.roomError sid "Invalid room id"],
        acks := ackIf hasAck (.errA "INVALID_ROOM_ID") } := by
  simp only [newMessage]
  rw [if_pos h]
  simp [tryEmit]

theorem newMessage_notin_eq (hasAck : Bool) (sid uid uname msgId now : String)
    (p : MsgPayload) (rid : String) (st : ServerState)
    (h : msgRoomId p = some rid) (hne : rid ≠ "") (hio : rid ∉ ioSetOf st sid) :
    newMessage none hasAck sid uid uname msgId now p st =
      { st := st, emits := [.roomError sid "You are not in this room"],
        acks := ackIf hasAck (.errA "NOT_IN_ROOM") } := by
  have hcond : ¬(msgRoomId p = none ∨ msgRoomId p = some "") := by
    rw [h]
    rintro (hc | hc)
    · cases hc
    · exact hne (by injection hc)
  simp only [newMessage]
  rw [if_neg hcond]
  simp [h, hio, tryEmit]

theorem newMessage_empty_eq (hasAck : Bool) (sid uid uname msgId now : String)
    (p : MsgPayload) (rid : String) (st : ServerState)
    (h : msgRoomId p = some rid) (hne : rid ≠ "") (hio : rid ∈ ioSetOf st sid)
    (ht : msgText p = "") :
    newMessage none hasAck sid uid uname msgId now p st =
      { st := st, emits := [], acks := ackIf hasAck (.errA "EMPTY_MESSAGE") } := by
  have hcond : ¬(msgRoomId p = none ∨ msgRoomId p = some "") := by
    rw [h]
    rintro (hc | hc)
    · cases hc
    · exact hne (by injection hc)
  simp only [newMessage]
  rw [if_neg hcond]
  simp [h, hio, ht]

theorem newMessage_success_eq (hasAck : Bool) (sid uid uname msgId now : String)
    (p : MsgPayload) (rid : String) (st : ServerState)
    (h : msgRoomId p = some rid) (hne : rid ≠ "") (hio : rid ∈ ioSetOf st sid)
    (ht : msgText p ≠ "") :
    newMessage none hasAck sid uid uname msgId now p st =
      { st := addMessageToRoom rid
          ⟨msgId, rid, msgText p, uid, jsOrStr (some uname) "Anonymous", sid, now⟩ st,
        emits := [.getLatestMessage rid
          ⟨msgId, rid, msgText p, uid, jsOrStr (some uname) "Anonymous", sid, now⟩],
        acks := ackIf hasAck
          (.okMsg ⟨msgId, rid, msgText p, uid, jsOrStr (some uname) "Anonymous", sid, now⟩) } := by
  have hcond : ¬(msgRoomId p = none ∨ msgRoomId p = some "") := by
    rw [h]
    rintro (hc | hc)
    · cases hc
    · exact hne (by injection hc)
  simp only [newMessage]
  rw [if_neg hcond]
  simp [h, hio, ht, tryEmit]

/-! ## Acknowledgment counting (all fault oracles) -/

theorem createRoom_ackCount (fault : Option Nat) (sid uid uname : String)
    (arg : Option String) (fid now : String) (st : ServerState) :
    (1 ≤ (createRoom fault true sid uid uname arg fid now st).acks.length ∧
     (createRoom fault true sid uid uname arg fid now st).acks.length ≤ 2) ∧
    (fault = none → (createRoom fault true sid uid uname arg fid now st).acks.length = 1) := by
  unfold createRoom
  simp only [tryEmit, ackIf, catchOut]
  repeat' split
  all_goals simp_all

theorem joinRoom_ackCount (fault : Option Nat) (sid uname : String)
    (arg : JoinArg) (st : ServerState) :
    (1 ≤ (joinRoom fault true sid uname arg st).acks.length ∧
     (joinRoom fault true sid uname arg st).acks.length ≤ 2) ∧
    (fault = none → (joinRoom fault true sid uname arg st).acks.length = 1) := by
  unfold joinRoom
  simp only [tryEmit, ackIf, catchOut]
  repeat' split
  all_goals simp_all

theorem leaveRoom_ackCount (fault : Option Nat) (sid uname : String)
    (ridArg : Option String) (st : ServerState) :
    (leaveRoom fault true sid uname ridArg st).acks.length = 1 := by
  unfold leaveRoom leaveRoomTail
  simp only [tryEmit, ackIf, catchOut]
  repeat' split
  all_goals simp_all

theorem newMessage_ackCount (fault : Option Nat) (sid uid uname msgId now : String)
    (p : MsgPayload) (st : ServerState) :
    (1 ≤ (newMessage fault true sid uid uname msgId now p st).acks.length ∧
     (newMessage fault true sid uid uname msgId now p st).acks.length ≤ 2) ∧
    (fault = none → (newMessage fault true sid uid uname msgId now p st).acks.length = 1) := by
  unfold newMessage
  simp only [tryEmit, ackIf, catchOut]
  repeat' split
  all_goals simp_all

/-! ## Invariant accessors -/

theorem Inv.nodupKeysA {st : ServerState} (h : Inv st) : (keysOf st.activeRooms).Nodup :=
  h.1

theorem Inv.nodupKeysS {st : ServerState} (h : Inv st) : (keysOf st.socketRooms).Nodup :=
  h.2.1

theorem Inv.nodupKeysI {st : ServerState} (h : Inv st) : (keysOf st.ioRooms).Nodup :=
  h.2.2.2.1

theorem Inv.room_members_nodup {st : ServerState} (h : Inv st) {rid : String}
    {room : Room} (hr : alistGet st.activeRooms rid = some room) :
    room.members.Nodup :=
  ((h.2.2.2.2.1 (rid, room) (alistGet_mem hr)).1 : _)

theorem Inv.room_members_nonempty {st : ServerState} (h : Inv st) {rid : String}
    {room : Room} (hr : alistGet st.activeRooms rid = some room) :
    room.members ≠ [] :=
  (h.2.2.2.2.1 (rid, room) (alistGet_mem hr)).2.1

theorem Inv.mem_to_sRooms {st : ServerState} (h : Inv st) {rid : String}
    {room : Room} (hr : alistGet st.activeRooms rid = some room) {c : String}
    (hc : c ∈ room.members) : rid ∈ sRoomsOf st c :=
  (h.2.2.2.2.1 (rid, room) (alistGet_mem hr)).2.2 c hc

theorem sRoomsOf_entry {st : ServerState} {c r : String} (h : r ∈ sRoomsOf st c) :
    ∃ l, alistGet st.socketRooms c = some l ∧ r ∈ l := by
  unfold sRoomsOf at h
  cases hg : alistGet st.socketRooms c with
  | none =>
    rw [hg] at h
    simp at h
  | some l =>
    rw [hg] at h
    exact ⟨l, rfl, h⟩

theorem ioSetOf_entry {st : ServerState} {c r : String} (h : r ∈ ioSetOf st c) :
    ∃ l, alistGet st.ioRooms c = some l ∧ r ∈ l := by
  unfold ioSetOf at h
  cases hg : alistGet st.ioRooms c with
  | none =>
    rw [hg] at h
    simp at h
  | some l =>
    rw [hg] at h
    exact ⟨l, rfl, h⟩

theorem Inv.sRooms_to_member {st : ServerState} (h : Inv st) {c r : String}
    (hr : r ∈ sRoomsOf st c) : c ∈ membersAt st r := by
  obtain ⟨l, hg, hmem⟩ := sRoomsOf_entry hr
  exact ((h.2.2.2.2.2.1 (c, l) (alistGet_mem hg)).2.2 r hmem).1

theorem Inv.sRooms_to_io {st : ServerState} (h : Inv st) {c r : String}
    (hr : r ∈ sRoomsOf st c) : r ∈ ioSetOf st c := by
  obtain ⟨l, hg, hmem⟩ := sRoomsOf_entry hr
  exact ((h.2.2.2.2.2.1 (c, l) (alistGet_mem hg)).2.2 r hmem).2

theorem Inv.sRooms_nonempty {st : ServerState} (h : Inv st) {c : String}
    {l : List String} (hg : alistGet st.socketRooms c = some l) : l ≠ [] :=
  (h.2.2.2.2.2.1 (c, l) (alistGet_mem hg)).2.1

theorem Inv.sRooms_nodup {st : ServerState} (h : Inv st) {c : String}
    {l : List String} (hg : alistGet st.socketRooms c = some l) : l.Nodup :=
  (h.2.2.2.2.2.1 (c, l) (alistGet_mem hg)).1

theorem Inv.io_cases {st : ServerState} (h : Inv st) {c r : String}
    (hr : r ∈ ioSetOf st c) : r = c ∨ r ∈ sRoomsOf st c := by
  obtain ⟨l, hg, hmem⟩ := ioSetOf_entry hr
  exact (h.2.2.2.2.2.2 (c, l) (alistGet_mem hg)).2 r hmem

theorem Inv.io_nodup {st : ServerState} (h : Inv st) {c : String}
    {l : List String} (hg : alistGet st.ioRooms c = some l) : l.Nodup :=
  (h.2.2.2.2.2.2 (c, l) (alistGet_mem hg)).1

theorem membersAt_exists {st : ServerState} {r c : String}
    (h : c ∈ membersAt st r) :
    ∃ room, alistGet st.activeRooms r = some room ∧ c ∈ room.members := by
  unfold membersAt at h
  cases hg : alistGet st.activeRooms r with
  | none =>
    rw [hg] at h
    simp at h
  | some room =>
    rw [hg] at h
    exact ⟨room, rfl, h⟩

theorem Inv.sRooms_room_exists {st : ServerState} (h : Inv st) {c r : String}
    (hr : r ∈ sRoomsOf st c) :
    ∃ room, alistGet st.activeRooms r = some room ∧ c ∈ room.members :=
  membersAt_exists (h.sRooms_to_member hr)

/-! ## Fold lemmas for the message history -/

theorem createState_get_self (sid uid uname : String) (arg : Option String)
    (fid now : String) (st : ServerState) :
    alistGet (createState sid uid uname arg fid now st).activeRooms fid
      = some ⟨jsTrim (jsOrStr arg (defaultRoomName uname)), [sid], uid, now⟩ := by
  have h1 : alistGet (ioJoin sid fid { st with activeRooms := alistSet st.activeRooms fid (createdRoom uid uname now arg) }).activeRooms fid = some (createdRoom uid uname now arg) := by
    simp [ioJoin, alistGet_set_self]
  unfold createState joinState
  rw [addMember_eq fid sid h1]
  simp [createdRoom, setAdd, alistGet_set_self]

theorem foldl_lastN_append (ms : List Message) (l : List Message) :
    List.foldl (fun h m => lastN 100 (h ++ [m])) (lastN 100 l) ms
      = lastN 100 (l ++ ms) := by
  induction ms generalizing l with
  | nil => simp
  | cons m rest ih =>
    rw [List.foldl_cons, lastN_append_one, ih (l ++ [m]), List.append_assoc]
    rfl

theorem runSends_history (rid : String) (sends : List Send) (st : ServerState)
    (hrne : rid ≠ "")
    (hall : ∀ q ∈ sends, msgRoomId q.p = some rid ∧ msgText q.p ≠ "" ∧ rid ∈ ioSetOf st q.sid) :
    getRoomMessages (runSends sends st) rid
      = List.foldl (fun h m => lastN 100 (h ++ [m])) (getRoomMessages st rid)
          (sends.map (sentMessage rid)) ∧
    (runSends sends st).ioRooms = st.ioRooms := by
  induction sends generalizing st with
  | nil => exact ⟨rfl, rfl⟩
  | cons q rest ih =>
    have hq := hall q (List.mem_cons_self _ _)
    have hstep := newMessage_success_eq true q.sid q.userId q.userName q.msgId q.now q.p rid st
      hq.1 hrne hq.2.2 hq.2.1
    have hrun : runSends (q :: rest) st
        = runSends rest (newMessage none true q.sid q.userId q.userName q.msgId q.now q.p st).st := by
      rfl
    have hsm : (⟨q.msgId, rid, msgText q.p, q.userId, jsOrStr (some q.userName) "Anonymous", q.sid, q.now⟩ : Message) = sentMessage rid q := rfl
    rw [hrun, hstep, hsm]
    have hfields := addMessageToRoom_fields rid (sentMessage rid q) st
    have hio2 : ∀ c, ioSetOf (addMessageToRoom rid (sentMessage rid q) st) c = ioSetOf st c := by
      intro c
      unfold ioSetOf
      rw [hfields.2.2]
    have hrest := ih (addMessageToRoom rid (sentMessage rid q) st)
      (fun q2 hq2 => ⟨(hall q2 (List.mem_cons_of_mem _ hq2)).1,
        (hall q2 (List.mem_cons_of_mem _ hq2)).2.1,
        by rw [hio2]; exact (hall q2 (List.mem_cons_of_mem _ hq2)).2.2⟩)
    constructor
    · rw [hrest.1, getRoomMessages_addMessage_self]
      rfl
    · rw [hrest.2, hfields.2.2]

/-! ## Claims -/

/-- C1 (corrected): every request supplying an acknowledgment callback
is acknowledged at least once and at most twice, and exactly once
whenever no internal exception occurs; `leaveRoom` acknowledges
exactly once under every fault oracle.  The original claim (exactly
once in every case) fails because an exception thrown by an emit that
runs after an acknowledgment was already issued — the `roomUsers`
broadcast after the success acknowledgment in `createRoom`, or the
`roomError` emit after a validation-failure acknowledgment in
`joinRoom` / `newMessage` — makes the shared `catch` block issue a
second, failure acknowledgment. -/
theorem c1_ack_resolution :
    (∀ fault sid uid uname arg fid now st,
      (1 ≤ (createRoom fault true sid uid uname arg fid now st).acks.length ∧
       (createRoom fault true sid uid uname arg fid now st).acks.length ≤ 2) ∧
      (fault = none →
        (createRoom fault true sid uid uname arg fid now st).acks.length = 1)) ∧
    (∀ fault sid uname arg st,
      (1 ≤ (joinRoom fault true sid uname arg st).acks.length ∧
       (joinRoom fault true sid uname arg st).acks.length ≤ 2) ∧
      (fault = none → (joinRoom fault true sid uname arg st).acks.length = 1)) ∧
    (∀ fault sid uname ridArg st,
      (leaveRoom fault true sid uname ridArg st).acks.length = 1) ∧
    (∀ fault sid uid uname msgId now p st,
      (1 ≤ (newMessage fault true sid uid uname msgId now p st).acks.length ∧
       (newMessage fault true sid uid uname msgId now p st).acks.length ≤ 2) ∧
      (fault = none →
        (newMessage fault true sid uid uname msgId now p st).acks.length = 1)) :=
  ⟨fun fault sid uid uname arg fid now st =>
      createRoom_ackCount fault sid uid uname arg fid now st,
   fun fault sid uname arg st => joinRoom_ackCount fault sid uname arg st,
   fun fault sid uname ridArg st => leaveRoom_ackCount fault sid uname ridArg st,
   fun fault sid uid uname msgId now p st =>
      newMessage_ackCount fault sid uid uname msgId now p st⟩

/-- C1 witness: a concrete fault-free `createRoom` acknowledges exactly
once. -/
theorem c1_ack_resolution_witness :
    (createRoom none true "A" "u1" "Alice" none "R1" "t0" stWA).acks.length = 1 :=
  (c1_ack_resolution.1 none "A" "u1" "Alice" none "R1" "t0" stWA).2 rfl

/-- C1 counterexample: when the `roomUsers` broadcast (emit attempt 1,
after the success acknowledgment) throws inside `createRoom`, the
callback is invoked twice — refuting exactly-once as originally
stated. -/
theorem c1_counterexample :
    (createRoom (some 1) true "A" "u1" "Alice" none "R1" "t0" stWA).acks.length = 2 := by
  decide

/-- C3 (confirmed): starting from an empty history, after any sequence
of successful `newMessage` operations on room `rid` the stored history
is exactly the last 100 sent messages in send order (all of them when
there are at most 100), and its length never exceeds 100. -/
theorem c3_history_cap (rid : String) (sends : List Send) (st : ServerState)
    (hrne : rid ≠ "") (h0 : getRoomMessages st rid = [])
    (hall : ∀ q ∈ sends, msgRoomId q.p = some rid ∧ msgText q.p ≠ "" ∧
      rid ∈ ioSetOf st q.sid) :
    getRoomMessages (runSends sends st) rid = lastN 100 (sends.map (sentMessage rid)) ∧
    (getRoomMessages (runSends sends st) rid).length ≤ 100 ∧
    (sends.length ≤ 100 →
      getRoomMessages (runSends sends st) rid = sends.map (sentMessage rid)) := by
  have h1 := (runSends_history rid sends st hrne hall).1
  rw [h0] at h1
  have h2 : List.foldl (fun h m => lastN 100 (h ++ [m])) ([] : List Message)
      (sends.map (sentMessage rid)) = lastN 100 (sends.map (sentMessage rid)) := by
    have h3 := foldl_lastN_append (sends.map (sentMessage rid)) []
    simpa [lastN] using h3
  rw [h1, h2]
  refine ⟨rfl, length_lastN_le _ _, fun hlen => lastN_of_le ?_⟩
  simpa using hlen

/-- C3 witness: one successful send into the fresh room `R1`. -/
theorem c3_history_cap_witness :
    getRoomMessages
        (runSends [⟨"A", "u1", "Alice", "m1", "t1", ⟨some "R1", none, none, some "hi"⟩⟩] stW1)
        "R1"
      = lastN 100
          ([⟨"A", "u1", "Alice", "m1", "t1", ⟨some "R1", none, none, some "hi"⟩⟩].map
            (sentMessage "R1")) :=
  (c3_history_cap "R1" [⟨"A", "u1", "Alice", "m1", "t1", ⟨some "R1", none, none, some "hi"⟩⟩]
    stW1 (by decide) (by decide)
    (by intro q hq; simp at hq; subst hq; refine ⟨by decide, by decide, by decide⟩)).1

/-- C9 (confirmed): a further `joinRoom` by a connection that is
already a member of an existing room leaves the whole server state
unchanged (membership is a set), still acknowledges `{ok, roomId}`,
and re-delivers the `roomJoined` snapshot with the stored history. -/
theorem c9_joinRoom_idempotent (hasAck : Bool) (sid uname rid : String)
    (room : Room) (st : ServerState) (hInv : Inv st) (hrid : rid ≠ "")
    (hr : alistGet st.activeRooms rid = some room) (hmem : sid ∈ room.members) :
    joinRoom none hasAck sid uname (JoinArg.jstr rid) st =
      { st := st,
        emits := [.roomJoined sid rid room.roomName (getRoomMessages st rid),
                  .userJoined rid sid uname,
                  .roomUsers rid room.members.length],
        acks := ackIf hasAck (.okJoin rid) } := by
  have harg : joinRoomIdOf (JoinArg.jstr rid) = some rid := by
    simp [joinRoomIdOf, hrid]
  have hsr : rid ∈ sRoomsOf st sid := hInv.mem_to_sRooms hr hmem
  obtain ⟨l, hgl, hrl⟩ := sRoomsOf_entry hsr
  have hio : rid ∈ ioSetOf st sid := hInv.sRooms_to_io hsr
  obtain ⟨il, hgil, hril⟩ := ioSetOf_entry hio
  have hjs : joinState sid rid st = st := by
    unfold joinState
    have hio2 : ioJoin sid rid st = st := by
      unfold ioJoin ioSetOf
      rw [hgil, Option.getD_some, setAdd_eq_of_mem hril, alistSet_eq_of_get hgil]
    rw [hio2, addMember_eq rid sid hr, setAdd_eq_of_mem hmem]
    have h3 : alistSet st.activeRooms rid { room with members := room.members }
        = st.activeRooms := by
      have h4 : ({ room with members := room.members } : Room) = room := rfl
      rw [h4, alistSet_eq_of_get hr]
    rw [h3]
    unfold sRoomsOf
    rw [hgl, Option.getD_some, setAdd_eq_of_mem hrl, alistSet_eq_of_get hgl]
  rw [joinRoom_success_eq hasAck sid uname _ rid room st harg hr, hjs,
      setAdd_eq_of_mem hmem]

/-- C9 witness: `B` rejoining `R1` in `stW2` changes nothing and is
acknowledged with the snapshot. -/
theorem c9_joinRoom_idempotent_witness :
    joinRoom none true "B" "Bob" (JoinArg.jstr "R1") stW2 =
      { st := stW2,
        emits := [.roomJoined "B" "R1" roomW1.roomName (getRoomMessages stW2 "R1"),
                  .userJoined "R1" "B" "Bob",
                  .roomUsers "R1" roomW1.members.length],
        acks := ackIf true (.okJoin "R1") } :=
  c9_joinRoom_idempotent true "B" "Bob" "R1" roomW1 stW2 (by decide) (by decide)
    (by decide) (by decide)

/-- C10 (confirmed): `createRoom` applies the default name only to an
absent or falsy `roomName` and trims afterwards, so a non-empty
whitespace-only name is stored as the empty string while an absent or
empty name is stored as the trimmed default. -/
theorem c10_name_normalization (hasAck : Bool) (sid uid uname fid now : String)
    (st : ServerState) (w : String) (hw : jsTrim w = "") (hwne : w ≠ "") :
    alistGet (createRoom none hasAck sid uid uname (some w) fid now st).st.activeRooms fid
        = some ⟨"", [sid], uid, now⟩ ∧
    alistGet (createRoom none hasAck sid uid uname none fid now st).st.activeRooms fid
        = some ⟨jsTrim (defaultRoomName uname), [sid], uid, now⟩ ∧
    alistGet (createRoom none hasAck sid uid uname (some "") fid now st).st.activeRooms fid
        = some ⟨jsTrim (defaultRoomName uname), [sid], uid, now⟩ := by
  refine ⟨?_, ?_, ?_⟩ <;> simp only [createRoom_none_eq, createState_get_self]
  · simp [jsOrStr, hwne, hw]
  · rfl
  · simp [jsOrStr]

/-- C10 witness: a whitespace-only name is stored as the empty
string. -/
theorem c10_name_normalization_witness :
    jsTrim " " = "" ∧ (" " : String) ≠ "" ∧
    alistGet (createRoom none true "A" "u1" "Alice" (some " ") "R1" "t0" emptyState).st.activeRooms "R1"
      = some ⟨"", ["A"], "u1", "t0"⟩ :=
  ⟨by decide, by decide,
   (c10_name_normalization true "A" "u1" "Alice" "R1" "t0" emptyState " "
      (by decide) (by decide)).1⟩



/-- C2 (corrected): in fault-free execution every validation-failure
acknowledgment leaves the registry untouched and broadcasts nothing to
any room, and in particular `joinRoom` on an unknown room id
acknowledges `ROOM_NOT_FOUND` and changes nothing, for every registry
state.  The original claim also asserted atomicity for caught internal
exceptions; that fails: `joinRoom` mutates the registry before its
emits, so an exception in the `roomJoined` emit yields a
`JOIN_ROOM_FAILED` acknowledgment with the membership insertion left
applied. -/
theorem c2_atomicity :
    (∀ hasAck sid uid uname arg fid now st e,
      (createRoom none hasAck sid uid uname arg fid now st).acks = [Ack.errA e] →
      registryOf (createRoom none hasAck sid uid uname arg fid now st).st = registryOf st ∧
      noRoomBroadcast (createRoom none hasAck sid uid uname arg fid now st).emits) ∧
    (∀ hasAck sid uname arg st e,
      (joinRoom none hasAck sid uname arg st).acks = [Ack.errA e] →
      registryOf (joinRoom none hasAck sid uname arg st).st = registryOf st ∧
      noRoomBroadcast (joinRoom none hasAck sid uname arg st).emits) ∧
    (∀ hasAck sid uname ridArg st e,
      (leaveRoom none hasAck sid uname ridArg st).acks = [Ack.errA e] →
      registryOf (leaveRoom none hasAck sid uname ridArg st).st = registryOf st ∧
      noRoomBroadcast (leaveRoom none hasAck sid uname ridArg st).emits) ∧
    (∀ hasAck sid uid uname msgId now p st e,
      (newMessage none hasAck sid uid uname msgId now p st).acks = [Ack.errA e] →
      registryOf (newMessage none hasAck sid uid uname msgId now p st).st = registryOf st ∧
      noRoomBroadcast (newMessage none hasAck sid uid uname msgId now p st).emits) ∧
    (∀ hasAck sid uname arg rid st, joinRoomIdOf arg = some rid →
      alistGet st.activeRooms rid = none →
      (joinRoom none hasAck sid uname arg st).st = st ∧
      (joinRoom none hasAck sid uname arg st).acks = ackIf hasAck (Ack.errA "ROOM_NOT_FOUND") ∧
      noRoomBroadcast (joinRoom none hasAck sid uname arg st).emits) := by
  refine ⟨?_, ?_, ?_, ?_, ?_⟩
  · intro hasAck sid uid uname arg fid now st e h
    rw [createRoom_none_eq] at h
    cases hasAck <;> simp [ackIf] at h
  · intro hasAck sid uname arg st e h
    cases ha : joinRoomIdOf arg with
    | none =>
      rw [joinRoom_invalid_eq _ _ _ _ _ ha]
      exact ⟨rfl, by simp [noRoomBroadcast, isRoomBroadcast]⟩
    | some rid =>
      cases hr : alistGet st.activeRooms rid with
      | none =>
        rw [joinRoom_notfound_eq _ _ _ _ rid _ ha hr]
        exact ⟨rfl, by simp [noRoomBroadcast, isRoomBroadcast]⟩
      | some room =>
        rw [joinRoom_success_eq _ _ _ _ rid room _ ha hr] at h
        cases hasAck <;> simp [ackIf] at h
  · intro hasAck sid uname ridArg st e h
    by_cases hcond : ridArg.getD "" = "" ∨ ridArg.getD "" ∉ ioSetOf st sid
    · rw [leaveRoom_notin_eq _ _ _ _ _ hcond]
      exact ⟨rfl, by simp [noRoomBroadcast]⟩
    · cases ridArg with
      | none => simp at hcond
      | some rid =>
        cases hr : alistGet st.activeRooms rid with
        | none =>
          rw [leaveRoom_nokey_eq _ _ _ _ _ (by simpa using hcond) hr] at h
          cases hasAck <;> simp [ackIf] at h
        | some room =>
          by_cases hm : setDel room.members sid = []
          · rw [leaveRoom_destroy_eq _ _ _ _ room _ (by simpa using hcond) hr hm] at h
            cases hasAck <;> simp [ackIf] at h
          · rw [leaveRoom_keep_eq _ _ _ _ room _ (by simpa using hcond) hr hm] at h
            cases hasAck <;> simp [ackIf] at h
  · intro hasAck sid uid uname msgId now p st e h
    by_cases hinv : msgRoomId p = none ∨ msgRoomId p = some ""
    · rw [newMessage_invalid_eq _ _ _ _ _ _ _ _ hinv]
      exact ⟨rfl, by simp [noRoomBroadcast, isRoomBroadcast]⟩
    · cases hrid : msgRoomId p with
      | none => exact absurd (Or.inl hrid) hinv
      | some rid =>
        have hne : rid ≠ "" := by
          intro he
          exact hinv (Or.inr (he ▸ hrid))
        by_cases hio : rid ∈ ioSetOf st sid
        · by_cases ht : msgText p = ""
          · rw [newMessage_empty_eq _ _ _ _ _ _ p rid _ hrid hne hio ht]
            exact ⟨rfl, by simp [noRoomBroadcast]⟩
          · rw [newMessage_success_eq _ _ _ _ _ _ p rid _ hrid hne hio ht] at h
            cases hasAck <;> simp [ackIf] at h
        · rw [newMessage_notin_eq _ _ _ _ _ _ p rid _ hrid hne hio]
          exact ⟨rfl, by simp [noRoomBroadcast, isRoomBroadcast]⟩
  · intro hasAck sid uname arg rid st ha hr
    rw [joinRoom_notfound_eq _ _ _ _ rid _ ha hr]
    exact ⟨rfl, rfl, by simp [noRoomBroadcast, isRoomBroadcast]⟩


/-- C2 witness: `joinRoom` on an unknown id against a concrete state
acknowledges `ROOM_NOT_FOUND` with no state change and no
broadcast. -/
theorem c2_witness :
    (joinRoom none true "B" "Bob" (JoinArg.jstr "nope") stW1).st = stW1 ∧
    (joinRoom none true "B" "Bob" (JoinArg.jstr "nope") stW1).acks
      = ackIf true (Ack.errA "ROOM_NOT_FOUND") ∧
    noRoomBroadcast (joinRoom none true "B" "Bob" (JoinArg.jstr "nope") stW1).emits :=
  c2_atomicity.2.2.2.2 true "B" "Bob" (JoinArg.jstr "nope") "nope" stW1 (by decide) (by decide)


/-- C2 counterexample: with a fault at the `roomJoined` emit, `joinRoom`
acknowledges failure yet the registry has changed. -/
theorem c2_counterexample :
    (joinRoom (some 0) true "B" "Bob" (JoinArg.jstr "R1") stWB).acks
        = [Ack.errA "JOIN_ROOM_FAILED"] ∧
    registryOf (joinRoom (some 0) true "B" "Bob" (JoinArg.jstr "R1") stWB).st
        ≠ registryOf stWB := by
  constructor
  · decide
  · decide




/-- C8 (corrected): fault-free `newMessage` validation in handler
order: missing or non-string room id acknowledges `INVALID_ROOM_ID`;
a room id outside the socket.io room set of the sender acknowledges
`NOT_IN_ROOM`; whitespace-only text acknowledges `EMPTY_MESSAGE`; and
otherwise the message is appended, broadcast (delivered to every room
member and to the sender), and acknowledged ok.  The original claim
required registry membership, but the code checks
`socket.rooms.has(roomId)`, which also contains the socket id itself —
so a `newMessage` whose room equals the own socket id passes
validation, appends to a history entry for a nonexistent room, and
acknowledges ok. -/
theorem c8_newMessage_validation (hasAck : Bool) (sid uid uname msgId now : String)
    (p : MsgPayload) (st : ServerState) :
    ((msgRoomId p = none ∨ msgRoomId p = some "") →
      newMessage none hasAck sid uid uname msgId now p st =
        { st := st, emits := [.roomError sid "Invalid room id"],
          acks := ackIf hasAck (.errA "INVALID_ROOM_ID") }) ∧
    (∀ rid, msgRoomId p = some rid → rid ≠ "" → rid ∉ ioSetOf st sid →
      newMessage none hasAck sid uid uname msgId now p st =
        { st := st, emits := [.roomError sid "You are not in this room"],
          acks := ackIf hasAck (.errA "NOT_IN_ROOM") }) ∧
    (∀ rid, msgRoomId p = some rid → rid ≠ "" → rid ∈ ioSetOf st sid → msgText p = "" →
      newMessage none hasAck sid uid uname msgId now p st =
        { st := st, emits := [], acks := ackIf hasAck (.errA "EMPTY_MESSAGE") }) ∧
    (∀ rid, msgRoomId p = some rid → rid ≠ "" → rid ∈ ioSetOf st sid → msgText p ≠ "" →
      (newMessage none hasAck sid uid uname msgId now p st).st
          = addMessageToRoom rid
              ⟨msgId, rid, msgText p, uid, jsOrStr (some uname) "Anonymous", sid, now⟩ st ∧
      (newMessage none hasAck sid uid uname msgId now p st).acks
          = ackIf hasAck
              (.okMsg ⟨msgId, rid, msgText p, uid, jsOrStr (some uname) "Anonymous", sid, now⟩) ∧
      (newMessage none hasAck sid uid uname msgId now p st).emits
          = [.getLatestMessage rid
              ⟨msgId, rid, msgText p, uid, jsOrStr (some uname) "Anonymous", sid, now⟩] ∧
      getRoomMessages (newMessage none hasAck sid uid uname msgId now p st).st rid
          = lastN 100 (getRoomMessages st rid ++
              [⟨msgId, rid, msgText p, uid, jsOrStr (some uname) "Anonymous", sid, now⟩]) ∧
      (Inv st → ∀ c ∈ membersAt st rid,
        rid ∈ ioSetOf (newMessage none hasAck sid uid uname msgId now p st).st c) ∧
      rid ∈ ioSetOf (newMessage none hasAck sid uid uname msgId now p st).st sid) := by
  refine ⟨?_, ?_, ?_, ?_⟩
  · intro h
    exact newMessage_invalid_eq _ _ _ _ _ _ _ _ h
  · intro rid h hne hio
    exact newMessage_notin_eq _ _ _ _ _ _ _ rid _ h hne hio
  · intro rid h hne hio ht
    exact newMessage_empty_eq _ _ _ _ _ _ _ rid _ h hne hio ht
  · intro rid h hne hio ht
    have hs := newMessage_success_eq hasAck sid uid uname msgId now p rid st h hne hio ht
    have hioEq : ∀ c, ioSetOf (newMessage none hasAck sid uid uname msgId now p st).st c
        = ioSetOf st c := by
      intro c
      rw [hs]
      unfold ioSetOf
      rw [(addMessageToRoom_fields _ _ _).2.2]
    refine ⟨by rw [hs], by rw [hs], by rw [hs], ?_, ?_, ?_⟩
    · rw [hs]
      exact getRoomMessages_addMessage_self _ _ _
    · intro hInv c hc
      obtain ⟨room, hroom, hcm⟩ := membersAt_exists hc
      rw [hioEq]
      exact hInv.sRooms_to_io (hInv.mem_to_sRooms hroom hcm)
    · rw [hioEq]
      exact hio


/-- C8 witness: a member of `R1` sends text that trims to `hi` and is
acknowledged ok. -/
theorem c8_witness :
    (newMessage none true "B" "u2" "Bob" "m1" "t1" ⟨some "R1", none, none, some " hi "⟩ stW2).acks
      = ackIf true (Ack.okMsg ⟨"m1", "R1", "hi", "u2", "Bob", "B", "t1"⟩) :=
  ((c8_newMessage_validation true "B" "u2" "Bob" "m1" "t1"
      ⟨some "R1", none, none, some " hi "⟩ stW2).2.2.2 "R1" (by decide) (by decide)
      (by decide) (by decide)).2.1


/-- C8 counterexample: sending to the own socket id — not a room, and
not a membership — still acknowledges ok and appends to a history
entry for the nonexistent room `A`. -/
theorem c8_counterexample :
    (newMessage none true "A" "u1" "Alice" "m1" "t1" ⟨some "A", none, none, some "hi"⟩ stW1).acks
        = [Ack.okMsg ⟨"m1", "A", "hi", "u1", "Alice", "A", "t1"⟩] ∧
    alistGet stW1.activeRooms "A" = none ∧
    getRoomMessages (newMessage none true "A" "u1" "Alice" "m1" "t1"
        ⟨some "A", none, none, some "hi"⟩ stW1).st "A"
      = [⟨"m1", "A", "hi", "u1", "Alice", "A", "t1"⟩] := by
  refine ⟨by decide, by decide, by decide⟩


/-- Fields of the state untouched by the reverse-index cleanup. -/
theorem rmStage2_fields (r c : String) (st : ServerState) :
    (rmStage2 r c st).activeRooms = st.activeRooms ∧
    (rmStage2 r c st).roomMessages = st.roomMessages ∧
    (rmStage2 r c st).ioRooms = st.ioRooms := by
  unfold rmStage2
  cases alistGet st.socketRooms c with
  | none => exact ⟨rfl, rfl, rfl⟩
  | some l =>
    by_cases h2 : setDel l r = [] <;> simp [h2]

/-- After the reverse-index cleanup the room is no longer indexed. -/
theorem not_mem_sRooms_rmStage2 (rid c : String) (st : ServerState) :
    rid ∉ sRoomsOf (rmStage2 rid c st) c := by
  unfold rmStage2
  cases hg : alistGet st.socketRooms c with
  | none =>
    unfold sRoomsOf
    rw [hg]
    simp
  | some l =>
    by_cases h2 : setDel l rid = []
    · unfold sRoomsOf
      simp [h2, alistGet_del_self]
    · unfold sRoomsOf
      simp [h2, alistGet_set_self, mem_setDel]

/-- The reverse-index cleanup is the identity when the room is not
indexed and the entry cannot become empty. -/
theorem rmStage2_id {st : ServerState} {c : String} (r : String)
    (h : ∀ l, alistGet st.socketRooms c = some l → (r ∉ l ∧ l ≠ [])) :
    rmStage2 r c st = st := by
  unfold rmStage2
  cases hg : alistGet st.socketRooms c with
  | none => rfl
  | some l =>
    have hl := h l hg
    have h2 : setDel l r = l := setDel_eq_of_not_mem hl.1
    simp [h2, hl.2, alistSet_eq_of_get hg]

/-- C4 (corrected): under the registry invariant, `leaveRoom` (i) acks
`NOT_IN_ROOM` and changes nothing when the argument is falsy or not in
the socket.io room set; (ii) when the id is in the socket.io room set
but not a genuine membership (by the invariant this is exactly the own
socket id), it acks ok while leaving the registry unchanged — the
original claim said such a call must ack `NOT_IN_ROOM`; (iii) for a
genuine membership it acks ok, removes the membership on both sides,
destroys the room and its message history exactly when the member set
becomes empty (keeping both otherwise), and a subsequent `joinRoom` of
a destroyed id acks `ROOM_NOT_FOUND`. -/
theorem c4_leaveRoom (hasAck : Bool) (sid uname : String) (st : ServerState)
    (hInv : Inv st) :
    (∀ ridArg : Option String, (ridArg.getD "" = "" ∨ ridArg.getD "" ∉ ioSetOf st sid) →
      leaveRoom none hasAck sid uname ridArg st =
        { st := st, emits := [], acks := ackIf hasAck (.errA "NOT_IN_ROOM") }) ∧
    (∀ rid, rid ≠ "" → rid ∈ ioSetOf st sid → rid ∉ sRoomsOf st sid →
      registryOf (leaveRoom none hasAck sid uname (some rid) st).st = registryOf st ∧
      (leaveRoom none hasAck sid uname (some rid) st).acks = ackIf hasAck (.okLeave rid)) ∧
    (∀ rid room, rid ≠ "" → rid ∈ sRoomsOf st sid →
      alistGet st.activeRooms rid = some room →
      (leaveRoom none hasAck sid uname (some rid) st).acks = ackIf hasAck (.okLeave rid) ∧
      alistGet (leaveRoom none hasAck sid uname (some rid) st).st.activeRooms rid
        = (if setDel room.members sid = [] then none
           else some { room with members := setDel room.members sid }) ∧
      alistGet (leaveRoom none hasAck sid uname (some rid) st).st.roomMessages rid
        = (if setDel room.members sid = [] then none
           else alistGet st.roomMessages rid) ∧
      rid ∉ sRoomsOf (leaveRoom none hasAck sid uname (some rid) st).st sid ∧
      sid ∉ membersAt (leaveRoom none hasAck sid uname (some rid) st).st rid ∧
      (setDel room.members sid = [] → ∀ sid2 uname2 hasAck2,
        (joinRoom none hasAck2 sid2 uname2 (JoinArg.jstr rid)
          (leaveRoom none hasAck sid uname (some rid) st).st).acks
          = ackIf hasAck2 (.errA "ROOM_NOT_FOUND"))) := by
  refine ⟨?_, ?_, ?_⟩
  · intro ridArg h
    exact leaveRoom_notin_eq hasAck sid uname ridArg st h
  · intro rid hne hio hns
    have hcond : ¬(rid = "" ∨ rid ∉ ioSetOf st sid) := by
      push_neg
      exact ⟨hne, hio⟩
    cases hr : alistGet st.activeRooms rid with
    | none =>
      rw [leaveRoom_nokey_eq hasAck sid uname rid st hcond hr]
      exact ⟨rfl, rfl⟩
    | some room =>
      have hsm : sid ∉ room.members := by
        intro hmem
        exact hns (hInv.mem_to_sRooms hr hmem)
      have hsd : setDel room.members sid = room.members := setDel_eq_of_not_mem hsm
      have hm : setDel room.members sid ≠ [] := by
        rw [hsd]
        exact hInv.room_members_nonempty hr
      rw [leaveRoom_keep_eq hasAck sid uname rid room st hcond hr hm]
      have hroomEq : ({ room with members := setDel room.members sid } : Room) = room := by
        rw [hsd]
      have hst2 : ({ ioLeave sid rid st with
          activeRooms := alistSet (ioLeave sid rid st).activeRooms rid
            { room with members := setDel room.members sid } } : ServerState)
          = ioLeave sid rid st := by
        rw [hroomEq]
        have : alistSet (ioLeave sid rid st).activeRooms rid room
            = (ioLeave sid rid st).activeRooms := alistSet_eq_of_get hr
        rw [this]
      rw [hst2]
      have hid : rmStage2 rid sid (ioLeave sid rid st) = ioLeave sid rid st := by
        apply rmStage2_id
        intro l hg
        have hg2 : alistGet st.socketRooms sid = some l := hg
        have hsl : sRoomsOf st sid = l := by
          unfold sRoomsOf
          rw [hg2]
          rfl
        constructor
        · rw [← hsl]
          exact hns
        · exact hInv.sRooms_nonempty hg2
      rw [hid]
      exact ⟨rfl, rfl⟩
  · intro rid room hne hsr hr
    obtain ⟨room2, hr2, hsm⟩ := hInv.sRooms_room_exists hsr
    rw [hr] at hr2
    injection hr2 with hr2
    subst hr2
    have hio : rid ∈ ioSetOf st sid := hInv.sRooms_to_io hsr
    have hcond : ¬(rid = "" ∨ rid ∉ ioSetOf st sid) := by
      push_neg
      exact ⟨hne, hio⟩
    by_cases hm : setDel room.members sid = []
    · rw [leaveRoom_destroy_eq hasAck sid uname rid room st hcond hr hm]
      have hfields := rmStage2_fields rid sid
        { ioLeave sid rid st with
          activeRooms := alistDel (ioLeave sid rid st).activeRooms rid,
          roomMessages := alistDel (ioLeave sid rid st).roomMessages rid }
      have hgone : alistGet (rmStage2 rid sid
          { ioLeave sid rid st with
            activeRooms := alistDel (ioLeave sid rid st).activeRooms rid,
            roomMessages := alistDel (ioLeave sid rid st).roomMessages rid }).activeRooms rid
          = none := by
        rw [hfields.1]
        exact alistGet_del_self _ rid
      have hmgone : alistGet (rmStage2 rid sid
          { ioLeave sid rid st with
            activeRooms := alistDel (ioLeave sid rid st).activeRooms rid,
            roomMessages := alistDel (ioLeave sid rid st).roomMessages rid }).roomMessages rid
          = none := by
        rw [hfields.2.1]
        exact alistGet_del_self _ rid
      refine ⟨rfl, ?_, ?_, ?_, ?_, ?_⟩
      · rw [hm]
        simp [hgone]
      · rw [if_pos hm]
        exact hmgone
      · exact not_mem_sRooms_rmStage2 rid sid _
      · unfold membersAt
        rw [hgone]
        simp
      · intro _ sid2 uname2 hasAck2
        rw [joinRoom_notfound_eq hasAck2 sid2 uname2 (JoinArg.jstr rid) rid _
          (by simp [joinRoomIdOf, hne]) hgone]
    · rw [leaveRoom_keep_eq hasAck sid uname rid room st hcond hr hm]
      have hfields := rmStage2_fields rid sid
        { ioLeave sid rid st with
          activeRooms := alistSet (ioLeave sid rid st).activeRooms rid
            { room with members := setDel room.members sid } }
      have hstill : alistGet (rmStage2 rid sid
          { ioLeave sid rid st with
            activeRooms := alistSet (ioLeave sid rid st).activeRooms rid
              { room with members := setDel room.members sid } }).activeRooms rid
          = some { room with members := setDel room.members sid } := by
        rw [hfields.1]
        exact alistGet_set_self _ rid _
      refine ⟨rfl, ?_, ?_, ?_, ?_, ?_⟩
      · rw [if_neg hm, hstill]
      · rw [if_neg hm, hfields.2.1]
        rfl
      · exact not_mem_sRooms_rmStage2 rid sid _
      · unfold membersAt
        rw [hstill]
        simp [mem_setDel]
      · intro hc
        exact absurd hc hm



/-- C4 counterexample: `leaveRoom` with the own socket id — an unknown
room — acknowledges ok instead of `NOT_IN_ROOM` (registry unchanged). -/
theorem c4_counterexample :
    (leaveRoom none true "A" "Alice" (some "A") stW1).acks = [Ack.okLeave "A"] ∧
    alistGet stW1.activeRooms "A" = none ∧
    registryOf (leaveRoom none true "A" "Alice" (some "A") stW1).st = registryOf stW1 := by
  refine ⟨by decide, by decide, by decide⟩

/-- C4 witness: the last member leaving `R1` acks ok and a subsequent
`joinRoom` of `R1` acks `ROOM_NOT_FOUND`. -/
theorem c4_witness :
    (leaveRoom none true "A" "Alice" (some "R1") stW1).acks = ackIf true (.okLeave "R1") ∧
    alistGet (leaveRoom none true "A" "Alice" (some "R1") stW1).st.roomMessages "R1" = none ∧
    (joinRoom none true "C" "Cara" (JoinArg.jstr "R1")
        (leaveRoom none true "A" "Alice" (some "R1") stW1).st).acks
      = ackIf true (.errA "ROOM_NOT_FOUND") := by
  have h := (c4_leaveRoom true "A" "Alice" stW1 (by decide)).2.2 "R1"
    ⟨jsTrim (defaultRoomName "Alice"), ["A"], "u1", "t0"⟩ (by decide) (by decide) (by decide)
  refine ⟨h.1, ?_, h.2.2.2.2.2 (by decide) "C" "Cara" true⟩
  rw [h.2.2.1]
  decide

/-! ## Commutation lemmas for map and set updates -/

theorem setDel_comm (l : List String) (a b : String) :
    setDel (setDel l a) b = setDel (setDel l b) a := by
  by_cases hab : a = b
  · subst hab
    rfl
  · induction l with
    | nil => rfl
    | cons y rest ih =>
      by_cases ha : y = a <;> by_cases hb : y = b
      · exact absurd (ha.symm.trans hb) hab
      · simp [setDel, ha, hb, ih, hab, Ne.symm hab]
      · simp [setDel, ha, hb, ih, hab, Ne.symm hab]
      · simp [setDel, ha, hb, ih]

theorem alistDel_comm {α : Type} (m : AList α) (k1 k2 : String) :
    alistDel (alistDel m k1) k2 = alistDel (alistDel m k2) k1 := by
  by_cases h12 : k1 = k2
  · subst h12
    rfl
  · induction m with
    | nil => rfl
    | cons p rest ih =>
      obtain ⟨k, v⟩ := p
      by_cases h1 : k = k1 <;> by_cases h2 : k = k2
      · exact absurd (h1.symm.trans h2) h12
      · simp [alistDel, h1, h2, ih, h12, Ne.symm h12]
      · simp [alistDel, h1, h2, ih, h12, Ne.symm h12]
      · simp [alistDel, h1, h2, ih]

theorem alistSet_set_self {α : Type} (m : AList α) (k : String) (v w : α) :
    alistSet (alistSet m k v) k w = alistSet m k w := by
  induction m with
  | nil => simp [alistSet]
  | cons p rest ih =>
    obtain ⟨k0, v0⟩ := p
    by_cases h0 : k0 = k <;> simp [alistSet, h0, ih]

theorem alistDel_set_self {α : Type} (m : AList α) (k : String) (v : α) :
    alistDel (alistSet m k v) k = alistDel m k := by
  induction m with
  | nil => simp [alistSet, alistDel]
  | cons p rest ih =>
    obtain ⟨k0, v0⟩ := p
    by_cases h0 : k0 = k <;> simp [alistSet, alistDel, h0, ih]

theorem alistSet_del_comm {α : Type} (m : AList α) (k1 k2 : String) (v : α)
    (h : k1 ≠ k2) :
    alistDel (alistSet m k1 v) k2 = alistSet (alistDel m k2) k1 v := by
  induction m with
  | nil => simp [alistSet, alistDel, h]
  | cons p rest ih =>
    obtain ⟨k0, v0⟩ := p
    by_cases h1 : k0 = k1 <;> by_cases h2 : k0 = k2
    · exact absurd (h1.symm.trans h2) h
    · simp [alistSet, alistDel, h1, h2, h, Ne.symm h]
    · simp [alistSet, alistDel, h1, h2, h, Ne.symm h, ih]
    · simp [alistSet, alistDel, h1, h2, ih]

theorem alistSet_comm_right {α : Type} (m : AList α) (k1 k2 : String) (v1 v2 : α)
    (hne : k1 ≠ k2) (h2 : alistHas m k2 = true) :
    alistSet (alistSet m k1 v1) k2 v2 = alistSet (alistSet m k2 v2) k1 v1 := by
  induction m with
  | nil => simp [alistHas, alistGet] at h2
  | cons p rest ih =>
    obtain ⟨k0, v0⟩ := p
    by_cases e1 : k0 = k1 <;> by_cases e2 : k0 = k2
    · exact absurd (e1 ▸ e2 : (k1 : String) = k2) hne
    · simp [alistSet, e1, e2, hne, Ne.symm hne]
    · simp [alistSet, e1, e2, hne, Ne.symm hne]
    · rw [alistHas, alistGet_cons, if_neg e2] at h2
      simp [alistSet, e1, e2, ih h2]

/-! ## Disconnect cleanup: components, commutation, idempotence -/


theorem has_of_get {α : Type} {m : AList α} {k : String} {v : α}
    (h : alistGet m k = some v) : alistHas m k = true := by
  unfold alistHas
  rw [h]
  rfl

theorem removeMember_components (r c : String) (st : ServerState) :
    (removeMember r c st).1 =
      ⟨rmA r c st.activeRooms, rmS r c st.activeRooms st.socketRooms,
       rmM r c st.activeRooms st.roomMessages, st.ioRooms⟩ := by
  unfold removeMember rmStage1 rmStage2 rmA rmM rmS sTrans
  cases hg : alistGet st.activeRooms r with
  | none => rfl
  | some room =>
    by_cases hm : setDel room.members c = [] <;>
      cases hs : alistGet st.socketRooms c with
    | none => simp [hm, hs]
    | some l => by_cases h2 : setDel l r = [] <;> simp [hm, hs, h2]

theorem rmA_get_other {r r2 : String} (c : String) (a : AList Room)
    (h : r2 ≠ r) : alistGet (rmA r c a) r2 = alistGet a r2 := by
  unfold rmA
  cases hg : alistGet a r with
  | none => rfl
  | some room =>
    by_cases hm : setDel room.members c = []
    · simp [hm, alistGet_del_ne _ _ _ h]
    · simp [hm, alistGet_set_ne _ _ _ _ h]

theorem rmA_eq_none {r : String} (c : String) {a : AList Room}
    (hg : alistGet a r = none) : rmA r c a = a := by
  unfold rmA
  rw [hg]

theorem rmA_eq_destroy {r c : String} {a : AList Room} {room : Room}
    (hg : alistGet a r = some room) (hm : setDel room.members c = []) :
    rmA r c a = alistDel a r := by
  unfold rmA
  rw [hg]
  simp [hm]

theorem rmA_eq_keep {r c : String} {a : AList Room} {room : Room}
    (hg : alistGet a r = some room) (hm : setDel room.members c ≠ []) :
    rmA r c a = alistSet a r { room with members := setDel room.members c } := by
  unfold rmA
  rw [hg]
  simp [hm]

theorem rmA_comm (c r1 r2 : String) (a : AList Room) (h : r1 ≠ r2) :
    rmA r1 c (rmA r2 c a) = rmA r2 c (rmA r1 c a) := by
  cases hg1 : alistGet a r1 with
  | none =>
    rw [rmA_eq_none c hg1,
        rmA_eq_none c (by rw [rmA_get_other c a h, hg1] : alistGet (rmA r2 c a) r1 = none)]
  | some room1 =>
    cases hg2 : alistGet a r2 with
    | none =>
      rw [rmA_eq_none c hg2,
          rmA_eq_none c (by rw [rmA_get_other c a (Ne.symm h), hg2] :
            alistGet (rmA r1 c a) r2 = none)]
    | some room2 =>
      have hg1' : alistGet (rmA r2 c a) r1 = some room1 := by
        rw [rmA_get_other c a h, hg1]
      have hg2' : alistGet (rmA r1 c a) r2 = some room2 := by
        rw [rmA_get_other c a (Ne.symm h), hg2]
      by_cases hm1 : setDel room1.members c = [] <;>
        by_cases hm2 : setDel room2.members c = []
      · rw [rmA_eq_destroy hg2 hm2] at hg1' ⊢
        rw [rmA_eq_destroy hg1 hm1] at hg2' ⊢
        rw [rmA_eq_destroy hg1' hm1, rmA_eq_destroy hg2' hm2, alistDel_comm]
      · rw [rmA_eq_keep hg2 hm2] at hg1' ⊢
        rw [rmA_eq_destroy hg1 hm1] at hg2' ⊢
        rw [rmA_eq_destroy hg1' hm1, rmA_eq_keep hg2' hm2,
            alistSet_del_comm _ _ _ _ (Ne.symm h)]
      · rw [rmA_eq_destroy hg2 hm2] at hg1' ⊢
        rw [rmA_eq_keep hg1 hm1] at hg2' ⊢
        rw [rmA_eq_keep hg1' hm1, rmA_eq_destroy hg2' hm2,
            alistSet_del_comm _ _ _ _ h]
      · rw [rmA_eq_keep hg2 hm2] at hg1' ⊢
        rw [rmA_eq_keep hg1 hm1] at hg2' ⊢
        rw [rmA_eq_keep hg1' hm1, rmA_eq_keep hg2' hm2,
            alistSet_comm_right _ _ _ _ _ (Ne.symm h) (has_of_get hg1)]



theorem rmM_eq_none {r : String} (c : String) {a : AList Room}
    (msgs : AList (List Message)) (hg : alistGet a r = none) :
    rmM r c a msgs = msgs := by
  unfold rmM
  rw [hg]

theorem rmM_eq_destroy {r c : String} {a : AList Room} {room : Room}
    (msgs : AList (List Message)) (hg : alistGet a r = some room)
    (hm : setDel room.members c = []) : rmM r c a msgs = alistDel msgs r := by
  unfold rmM
  rw [hg]
  simp [hm]

theorem rmM_eq_keep {r c : String} {a : AList Room} {room : Room}
    (msgs : AList (List Message)) (hg : alistGet a r = some room)
    (hm : setDel room.members c ≠ []) : rmM r c a msgs = msgs := by
  unfold rmM
  rw [hg]
  simp [hm]

theorem rmM_comm (c r1 r2 : String) (h : r1 ≠ r2) (a : AList Room)
    (msgs : AList (List Message)) :
    rmM r1 c (rmA r2 c a) (rmM r2 c a msgs) = rmM r2 c (rmA r1 c a) (rmM r1 c a msgs) := by
  cases hg1 : alistGet a r1 with
  | none =>
    rw [rmM_eq_none c _ (by rw [rmA_get_other c a h, hg1]),
        rmA_eq_none c hg1, rmM_eq_none c msgs hg1]
  | some room1 =>
    cases hg2 : alistGet a r2 with
    | none =>
      rw [rmA_eq_none c hg2, rmM_eq_none c msgs hg2,
          rmM_eq_none c (rmM r1 c a msgs)
            (by rw [rmA_get_other c a (Ne.symm h)]; exact hg2)]
    | some room2 =>
      have hg1' : alistGet (rmA r2 c a) r1 = some room1 := by
        rw [rmA_get_other c a h, hg1]
      have hg2' : alistGet (rmA r1 c a) r2 = some room2 := by
        rw [rmA_get_other c a (Ne.symm h), hg2]
      by_cases hm1 : setDel room1.members c = [] <;>
        by_cases hm2 : setDel room2.members c = []
      · rw [rmM_eq_destroy msgs hg2 hm2, rmM_eq_destroy _ hg1' hm1,
            rmM_eq_destroy msgs hg1 hm1, rmM_eq_destroy _ hg2' hm2, alistDel_comm]
      · rw [rmM_eq_keep msgs hg2 hm2, rmM_eq_destroy _ hg1' hm1,
            rmM_eq_destroy msgs hg1 hm1, rmM_eq_keep _ hg2' hm2]
      · rw [rmM_eq_destroy msgs hg2 hm2, rmM_eq_keep _ hg1' hm1,
            rmM_eq_keep msgs hg1 hm1, rmM_eq_destroy _ hg2' hm2]
      · rw [rmM_eq_keep msgs hg2 hm2, rmM_eq_keep _ hg1' hm1,
            rmM_eq_keep msgs hg1 hm1, rmM_eq_keep _ hg2' hm2]

theorem sTrans_eq_none {c : String} (r : String) {s : AList (List String)}
    (hs : alistGet s c = none) : sTrans r c s = s := by
  unfold sTrans
  rw [hs]

theorem sTrans_eq_del {r c : String} {s : AList (List String)} {l : List String}
    (hs : alistGet s c = some l) (he : setDel l r = []) :
    sTrans r c s = alistDel s c := by
  unfold sTrans
  rw [hs]
  simp [he]

theorem sTrans_eq_set {r c : String} {s : AList (List String)} {l : List String}
    (hs : alistGet s c = some l) (he : setDel l r ≠ []) :
    sTrans r c s = alistSet s c (setDel l r) := by
  unfold sTrans
  rw [hs]
  simp [he]

theorem sTrans_comm (c r1 r2 : String) (s : AList (List String)) :
    sTrans r1 c (sTrans r2 c s) = sTrans r2 c (sTrans r1 c s) := by
  cases hs : alistGet s c with
  | none =>
    rw [sTrans_eq_none r2 hs, sTrans_eq_none r1 hs, sTrans_eq_none r2 hs]
  | some l =>
    by_cases e1 : setDel l r1 = [] <;> by_cases e2 : setDel l r2 = []
    · rw [sTrans_eq_del hs e2, sTrans_eq_del hs e1,
          sTrans_eq_none r1 (alistGet_del_self s c),
          sTrans_eq_none r2 (alistGet_del_self s c)]
    · rw [sTrans_eq_set hs e2, sTrans_eq_del hs e1,
          sTrans_eq_none r2 (alistGet_del_self s c)]
      have hg2 : alistGet (alistSet s c (setDel l r2)) c = some (setDel l r2) :=
        alistGet_set_self s c _
      have he : setDel (setDel l r2) r1 = [] := by
        rw [setDel_comm, e1]
        rfl
      rw [sTrans_eq_del hg2 he, alistDel_set_self]
    · rw [sTrans_eq_del hs e2, sTrans_eq_set hs e1,
          sTrans_eq_none r1 (alistGet_del_self s c)]
      have hg1 : alistGet (alistSet s c (setDel l r1)) c = some (setDel l r1) :=
        alistGet_set_self s c _
      have he : setDel (setDel l r1) r2 = [] := by
        rw [setDel_comm, e2]
        rfl
      rw [sTrans_eq_del hg1 he, alistDel_set_self]
    · rw [sTrans_eq_set hs e2, sTrans_eq_set hs e1]
      have hg2 : alistGet (alistSet s c (setDel l r2)) c = some (setDel l r2) :=
        alistGet_set_self s c _
      have hg1 : alistGet (alistSet s c (setDel l r1)) c = some (setDel l r1) :=
        alistGet_set_self s c _
      by_cases e12 : setDel (setDel l r2) r1 = []
      · have e21 : setDel (setDel l r1) r2 = [] := by
          rw [setDel_comm]
          exact e12
        rw [sTrans_eq_del hg2 e12, sTrans_eq_del hg1 e21,
            alistDel_set_self, alistDel_set_self]
      · have e21 : setDel (setDel l r1) r2 ≠ [] := by
          rw [setDel_comm]
          exact e12
        rw [sTrans_eq_set hg2 e12, sTrans_eq_set hg1 e21,
            alistSet_set_self, alistSet_set_self, setDel_comm]

theorem rmS_eq_none {r : String} (c : String) {a : AList Room}
    (s : AList (List String)) (hg : alistGet a r = none) : rmS r c a s = s := by
  unfold rmS
  rw [hg]

theorem rmS_eq_some {r c : String} {a : AList Room} {room : Room}
    (s : AList (List String)) (hg : alistGet a r = some room) :
    rmS r c a s = sTrans r c s := by
  unfold rmS
  rw [hg]

theorem rmS_comm (c r1 r2 : String) (h : r1 ≠ r2) (a : AList Room)
    (s : AList (List String)) :
    rmS r1 c (rmA r2 c a) (rmS r2 c a s) = rmS r2 c (rmA r1 c a) (rmS r1 c a s) := by
  cases hg1 : alistGet a r1 with
  | none =>
    rw [rmS_eq_none c _ (by rw [rmA_get_other c a h, hg1]),
        rmA_eq_none c hg1, rmS_eq_none c s hg1]
  | some room1 =>
    cases hg2 : alistGet a r2 with
    | none =>
      rw [rmA_eq_none c hg2, rmS_eq_none c s hg2,
          rmS_eq_none c (rmS r1 c a s)
            (by rw [rmA_get_other c a (Ne.symm h)]; exact hg2)]
    | some room2 =>
      have hg1' : alistGet (rmA r2 c a) r1 = some room1 := by
        rw [rmA_get_other c a h, hg1]
      have hg2' : alistGet (rmA r1 c a) r2 = some room2 := by
        rw [rmA_get_other c a (Ne.symm h), hg2]
      rw [rmS_eq_some _ hg2, rmS_eq_some _ hg1', rmS_eq_some _ hg1,
          rmS_eq_some _ hg2', sTrans_comm]

theorem removeMember_comm (c r1 r2 : String) (h : r1 ≠ r2) (st : ServerState) :
    (removeMember r1 c (removeMember r2 c st).1).1
      = (removeMember r2 c (removeMember r1 c st).1).1 := by
  rw [removeMember_components r2 c st, removeMember_components r1 c st,
      removeMember_components, removeMember_components]
  simp only []
  rw [rmA_comm c r1 r2 st.activeRooms h, rmS_comm c r1 r2 h, rmM_comm c r1 r2 h]



theorem foldRM_nil (sid : String) (st : ServerState) : foldRM sid [] st = st := rfl

theorem foldRM_cons (sid r : String) (rest : List String) (st : ServerState) :
    foldRM sid (r :: rest) st = foldRM sid rest (removeMember r sid st).1 := rfl

theorem disconnectLoop_st (sid uname : String) (rooms : List String)
    (st : ServerState) (emits : List EmitEv) :
    (disconnectLoop sid uname rooms st emits).1 = foldRM sid rooms st := by
  induction rooms generalizing st emits with
  | nil => rfl
  | cons r rest ih =>
    unfold disconnectLoop
    exact ih _ _

theorem foldRM_pull (sid : String) (A B : List String) (rid : String)
    (st : ServerState) (hA : rid ∉ A) :
    foldRM sid (A ++ rid :: B) st = foldRM sid (A ++ B) (removeMember rid sid st).1 := by
  induction A generalizing st with
  | nil => rfl
  | cons x xs ih =>
    have hx : rid ≠ x := fun he => hA (he ▸ List.mem_cons_self x xs)
    have hxs : rid ∉ xs := fun hm => hA (List.mem_cons_of_mem x hm)
    rw [List.cons_append, foldRM_cons, ih _ hxs, List.cons_append, foldRM_cons,
        removeMember_comm sid rid x hx st]

theorem foldRM_ioRooms (sid : String) (rooms : List String) (st : ServerState) :
    (foldRM sid rooms st).ioRooms = st.ioRooms := by
  induction rooms generalizing st with
  | nil => rfl
  | cons r rest ih =>
    rw [foldRM_cons, ih, removeMember_components]

theorem removeMember_set_ioRooms (r c : String) (st : ServerState)
    (x : AList (List String)) :
    (removeMember r c { st with ioRooms := x }).1 = { (removeMember r c st).1 with ioRooms := x } := by
  rw [removeMember_components, removeMember_components]

theorem foldRM_set_ioRooms (sid : String) (rooms : List String) (st : ServerState)
    (x : AList (List String)) :
    foldRM sid rooms { st with ioRooms := x } = { foldRM sid rooms st with ioRooms := x } := by
  induction rooms generalizing st with
  | nil => rfl
  | cons r rest ih =>
    rw [foldRM_cons, removeMember_set_ioRooms, ih, foldRM_cons]

theorem disconnect_st_eq (sid uname : String) (st : ServerState) :
    (disconnect sid uname st).1 =
      { foldRM sid ((alistGet st.socketRooms sid).getD []) st with
        socketRooms := alistDel (foldRM sid ((alistGet st.socketRooms sid).getD []) st).socketRooms sid,
        ioRooms := alistDel (foldRM sid ((alistGet st.socketRooms sid).getD []) st).ioRooms sid } := by
  unfold disconnect
  simp only [disconnectLoop_st]

theorem disconnect_of_clean {st1 : ServerState} (sid uname : String)
    (hs : alistGet st1.socketRooms sid = none) (hi : alistGet st1.ioRooms sid = none) :
    disconnect sid uname st1 = (st1, []) := by
  unfold disconnect
  simp only [hs, Option.getD_none]
  show ({ st1 with socketRooms := alistDel st1.socketRooms sid,
                   ioRooms := alistDel st1.ioRooms sid }, ([] : List EmitEv)) = (st1, [])
  rw [alistDel_eq_of_none hs, alistDel_eq_of_none hi]



theorem leaveRoom_member_st (hasAck : Bool) (sid uname rid : String) (st : ServerState)
    (hcond : ¬(rid = "" ∨ rid ∉ ioSetOf st sid)) :
    (leaveRoom none hasAck sid uname (some rid) st).st = leaveState sid rid st := by
  cases hr : alistGet st.activeRooms rid with
  | none =>
    rw [leaveRoom_nokey_eq hasAck sid uname rid st hcond hr]
    unfold leaveState removeMember
    have hr1 : alistGet (ioLeave sid rid st).activeRooms rid = none := hr
    rw [hr1]
  | some room =>
    by_cases hm : setDel room.members sid = []
    · rw [leaveRoom_destroy_eq hasAck sid uname rid room st hcond hr hm]
      unfold leaveState removeMember rmStage1
      have hr1 : alistGet (ioLeave sid rid st).activeRooms rid = some room := hr
      rw [hr1]
      simp [hm]
    · rw [leaveRoom_keep_eq hasAck sid uname rid room st hcond hr hm]
      unfold leaveState removeMember rmStage1
      have hr1 : alistGet (ioLeave sid rid st).activeRooms rid = some room := hr
      rw [hr1]
      simp [hm]

theorem leaveRoom_nonmember_st (hasAck : Bool) (sid uname rid : String)
    (st : ServerState) (hInv : Inv st)
    (hcond : ¬(rid = "" ∨ rid ∉ ioSetOf st sid)) (hns : rid ∉ sRoomsOf st sid) :
    (leaveRoom none hasAck sid uname (some rid) st).st = ioLeave sid rid st := by
  rw [leaveRoom_member_st hasAck sid uname rid st hcond]
  unfold leaveState removeMember
  cases hr : alistGet (ioLeave sid rid st).activeRooms rid with
  | none => rfl
  | some room =>
    have hr0 : alistGet st.activeRooms rid = some room := hr
    have hsm : sid ∉ room.members := fun hmem => hns (hInv.mem_to_sRooms hr0 hmem)
    have hsd : setDel room.members sid = room.members := setDel_eq_of_not_mem hsm
    have hm : setDel room.members sid ≠ [] := by
      rw [hsd]
      exact hInv.room_members_nonempty hr0
    unfold rmStage1
    rw [hr]
    simp only [hm, reduceIte]
    have hroomEq : ({ room with members := setDel room.members sid } : Room) = room := by
      rw [hsd]
    rw [hroomEq, alistSet_eq_of_get hr]
    apply rmStage2_id
    intro l hg
    have hg2 : alistGet st.socketRooms sid = some l := hg
    have hsl : sRoomsOf st sid = l := by
      unfold sRoomsOf
      rw [hg2]
      rfl
    exact ⟨hsl ▸ hns, hInv.sRooms_nonempty hg2⟩

theorem setDel_eq_append {A B : List String} {rid : String} (hA : rid ∉ A)
    (hB : rid ∉ B) : setDel (A ++ rid :: B) rid = A ++ B := by
  induction A with
  | nil =>
    simp only [List.nil_append]
    rw [setDel, if_pos rfl, setDel_eq_of_not_mem hB]
  | cons y ys ih =>
    have hy : y ≠ rid := fun he => hA (he ▸ List.mem_cons_self y ys)
    rw [List.cons_append, setDel, if_neg hy,
        ih (fun hm => hA (List.mem_cons_of_mem y hm)), List.cons_append]

theorem sTrans_sRooms_self {rid sid : String} {s : AList (List String)}
    {l : List String} (hg : alistGet s sid = some l) :
    (alistGet (sTrans rid sid s) sid).getD [] = setDel l rid := by
  by_cases he : setDel l rid = []
  · rw [sTrans_eq_del hg he, alistGet_del_self, he]
    rfl
  · rw [sTrans_eq_set hg he, alistGet_set_self]
    rfl

theorem disconnect_clean (sid uname : String) (st : ServerState) :
    alistGet (disconnect sid uname st).1.socketRooms sid = none ∧
    alistGet (disconnect sid uname st).1.ioRooms sid = none := by
  rw [disconnect_st_eq]
  exact ⟨alistGet_del_self _ _, alistGet_del_self _ _⟩

theorem disconnect_set_io (sid uname : String) (st : ServerState) (v : List String) :
    (disconnect sid uname { st with ioRooms := alistSet st.ioRooms sid v }).1
      = (disconnect sid uname st).1 := by
  rw [disconnect_st_eq, disconnect_st_eq]
  show ({ foldRM sid ((alistGet st.socketRooms sid).getD []) { st with ioRooms := alistSet st.ioRooms sid v } with
      socketRooms := alistDel (foldRM sid ((alistGet st.socketRooms sid).getD []) { st with ioRooms := alistSet st.ioRooms sid v }).socketRooms sid,
      ioRooms := alistDel (foldRM sid ((alistGet st.socketRooms sid).getD []) { st with ioRooms := alistSet st.ioRooms sid v }).ioRooms sid } : ServerState) = _
  rw [foldRM_set_ioRooms]
  simp [ServerState.mk.injEq, foldRM_ioRooms, alistDel_set_self]



/-- C7 (confirmed): disconnect cleanup is idempotent on the whole
server state — running it twice for the same connection equals running
it once, for every state (the second run also emits nothing); and
under the registry invariant, an explicit `leaveRoom` followed by the
cleanup for the same connection reaches exactly the state the cleanup
alone reaches. -/
theorem c7_cleanup_idempotent :
    (∀ sid uname st, disconnect sid uname (disconnect sid uname st).1
        = ((disconnect sid uname st).1, [])) ∧
    (∀ hasAck sid uname ridArg st, Inv st →
      (disconnect sid uname (leaveRoom none hasAck sid uname ridArg st).st).1
        = (disconnect sid uname st).1) := by
  constructor
  · intro sid uname st
    exact disconnect_of_clean sid uname (disconnect_clean sid uname st).1
      (disconnect_clean sid uname st).2
  · intro hasAck sid uname ridArg st hInv
    by_cases hcond : ridArg.getD "" = "" ∨ ridArg.getD "" ∉ ioSetOf st sid
    · rw [leaveRoom_notin_eq hasAck sid uname ridArg st hcond]
    · cases ridArg with
      | none => simp at hcond
      | some rid =>
        have hcond2 : ¬(rid = "" ∨ rid ∉ ioSetOf st sid) := by simpa using hcond
        by_cases hns : rid ∈ sRoomsOf st sid
        · rw [leaveRoom_member_st hasAck sid uname rid st hcond2]
          obtain ⟨l, hgl, hrl⟩ := sRoomsOf_entry hns
          obtain ⟨room, hr, hsm⟩ := hInv.sRooms_room_exists hns
          have hnd : l.Nodup := hInv.sRooms_nodup hgl
          have hYio : (removeMember rid sid st).1.ioRooms = st.ioRooms := by
            rw [removeMember_components]
          have hL : leaveState sid rid st
              = { (removeMember rid sid st).1 with
                  ioRooms := alistSet (removeMember rid sid st).1.ioRooms sid
                    (setDel (ioSetOf st sid) rid) } := by
            unfold leaveState
            rw [show ioLeave sid rid st = { st with ioRooms := alistSet st.ioRooms sid (setDel (ioSetOf st sid) rid) } from rfl]
            rw [removeMember_set_ioRooms, hYio]
          rw [hL, disconnect_set_io]
          rw [disconnect_st_eq, disconnect_st_eq]
          obtain ⟨A, B, hlab⟩ := List.append_of_mem hrl
          subst hlab
          have hsplit := List.nodup_append.mp hnd
          have hA : rid ∉ A := by
            intro hm
            exact hsplit.2.2 hm (List.mem_cons_self rid B)
          have hB : rid ∉ B := (List.nodup_cons.mp hsplit.2.1).1
          have hYs : (removeMember rid sid st).1.socketRooms
              = sTrans rid sid st.socketRooms := by
            rw [removeMember_components]
            exact rmS_eq_some _ hr
          have hJ : (alistGet (removeMember rid sid st).1.socketRooms sid).getD []
              = A ++ B := by
            rw [hYs, sTrans_sRooms_self hgl, setDel_eq_append hA hB]
          have hJ0 : (alistGet st.socketRooms sid).getD [] = A ++ rid :: B := by
            rw [hgl]
            rfl
          rw [hJ, hJ0, foldRM_pull sid A B rid st hA]
        · rw [leaveRoom_nonmember_st hasAck sid uname rid st hInv hcond2 hns]
          exact disconnect_set_io sid uname st (setDel (ioSetOf st sid) rid)

/-- C7 witness: for the concrete one-room state, leaving `R1` and then
disconnecting equals disconnecting directly. -/
theorem c7_witness :
    (disconnect "A" "Alice" (leaveRoom none true "A" "Alice" (some "R1") stW1).st).1
      = (disconnect "A" "Alice" stW1).1 :=
  c7_cleanup_idempotent.2 true "A" "Alice" (some "R1") stW1 (by decide)

end ChatApp

namespace ChatApp

theorem setAdd_ne_nil (l : List String) (x : String) : setAdd l x ≠ [] := by
  unfold setAdd
  split
  · rename_i h
    intro he
    rw [he] at h
    cases h
  · intro he
    cases l <;> simp at he

theorem Inv.sRoomsOf_nodup {st : ServerState} (h : Inv st) (c : String) :
    (sRoomsOf st c).Nodup := by
  unfold sRoomsOf
  cases hg : alistGet st.socketRooms c with
  | none => simp
  | some l => exact h.sRooms_nodup hg

theorem Inv.ioSetOf_nodup {st : ServerState} (h : Inv st) (c : String) :
    (ioSetOf st c).Nodup := by
  unfold ioSetOf
  cases hg : alistGet st.ioRooms c with
  | none => simp
  | some l => exact h.io_nodup hg

theorem setDel_all_eq {l : List String} {x : String} (h : setDel l x = []) :
    ∀ y ∈ l, y = x := by
  intro y hy
  by_contra hne
  have : y ∈ setDel l x := mem_setDel.mpr ⟨hy, hne⟩
  rw [h] at this
  cases this

theorem inv_setRoomJoin {st : ServerState} (hInv : Inv st) (rid sid : String)
    (room2 : Room) (hnd2 : room2.members.Nodup) (hsid : sid ∈ room2.members)
    (hsub : ∀ c ∈ membersAt st rid, c ∈ room2.members)
    (hmem : ∀ c ∈ room2.members, c = sid ∨ c ∈ membersAt st rid) :
    Inv ⟨alistSet st.activeRooms rid room2,
         alistSet st.socketRooms sid (setAdd (sRoomsOf st sid) rid),
         st.roomMessages,
         alistSet st.ioRooms sid (setAdd (ioSetOf st sid) rid)⟩ := by
  obtain ⟨h1, h2, h3, h4, h5, h6, h7⟩ := hInv
  set stN : ServerState := ⟨alistSet st.activeRooms rid room2,
         alistSet st.socketRooms sid (setAdd (sRoomsOf st sid) rid),
         st.roomMessages,
         alistSet st.ioRooms sid (setAdd (ioSetOf st sid) rid)⟩ with hstN
  have hSR : ∀ c2, sRoomsOf stN c2
      = if c2 = sid then setAdd (sRoomsOf st sid) rid else sRoomsOf st c2 := by
    intro c2
    by_cases hc : c2 = sid
    · rw [hc]
      simp [sRoomsOf, hstN]
    · simp [sRoomsOf, hstN, alistGet_set_ne _ _ _ _ hc, hc]
  have hIOf : ∀ c2, ioSetOf stN c2
      = if c2 = sid then setAdd (ioSetOf st sid) rid else ioSetOf st c2 := by
    intro c2
    by_cases hc : c2 = sid
    · rw [hc]
      simp [ioSetOf, hstN]
    · simp [ioSetOf, hstN, alistGet_set_ne _ _ _ _ hc, hc]
  have hMA : ∀ r, membersAt stN r
      = if r = rid then room2.members else membersAt st r := by
    intro r
    by_cases hr : r = rid
    · rw [hr]
      simp [membersAt, hstN]
    · simp [membersAt, hstN, alistGet_set_ne _ _ _ _ hr, hr]
  have hSRmono : ∀ c r, r ∈ sRoomsOf st c → r ∈ sRoomsOf stN c := by
    intro c r hr
    rw [hSR c]
    by_cases hc : c = sid
    · rw [if_pos hc]
      exact mem_setAdd_of_mem rid (hc ▸ hr)
    · rw [if_neg hc]
      exact hr
  have hIOmono : ∀ c r, r ∈ ioSetOf st c → r ∈ ioSetOf stN c := by
    intro c r hr
    rw [hIOf c]
    by_cases hc : c = sid
    · rw [if_pos hc]
      exact mem_setAdd_of_mem rid (hc ▸ hr)
    · rw [if_neg hc]
      exact hr
  refine ⟨nodup_keys_set _ _ h1, nodup_keys_set _ _ h2, h3, nodup_keys_set _ _ h4,
    ?_, ?_, ?_⟩
  · -- rooms: nodup, nonempty, members indexed
    intro p hp
    rcases mem_of_mem_alistSet h1 hp with hpr | ⟨hpm, hpne⟩
    · subst hpr
      refine ⟨hnd2, ?_, ?_⟩
      · intro he
        rw [he] at hsid
        cases hsid
      intro c hc
      rcases hmem c hc with rfl | hcm
      · rw [hSR c, if_pos rfl]
        exact self_mem_setAdd _ rid
      · obtain ⟨roomc, hgc, hcmem⟩ := membersAt_exists hcm
        exact hSRmono c rid ((h5 (rid, roomc) (alistGet_mem hgc)).2.2 c hcmem)
    · have ho := h5 p hpm
      refine ⟨ho.1, ho.2.1, ?_⟩
      intro c hc
      exact hSRmono c p.1 (ho.2.2 c hc)
  · -- reverse index entries
    intro q hq
    rcases mem_of_mem_alistSet h2 hq with hqr | ⟨hqm, hqne⟩
    · subst hqr
      refine ⟨nodup_setAdd rid (Inv.sRoomsOf_nodup ⟨h1, h2, h3, h4, h5, h6, h7⟩ sid),
        setAdd_ne_nil _ rid, ?_⟩
      intro r hr
      rcases mem_setAdd.mp hr with rfl | hrs
      · constructor
        · rw [hMA r, if_pos rfl]
          exact hsid
        · rw [hIOf sid, if_pos rfl]
          exact self_mem_setAdd _ r
      · have hms : sid ∈ membersAt st r :=
          Inv.sRooms_to_member ⟨h1, h2, h3, h4, h5, h6, h7⟩ hrs
        constructor
        · rw [hMA r]
          by_cases hrr : r = rid
          · subst hrr
            rw [if_pos rfl]
            exact hsub sid hms
          · rw [if_neg hrr]
            exact hms
        · exact hIOmono sid r
            (Inv.sRooms_to_io ⟨h1, h2, h3, h4, h5, h6, h7⟩ hrs)
    · have ho := h6 q hqm
      refine ⟨ho.1, ho.2.1, ?_⟩
      intro r hr
      have hor := ho.2.2 r hr
      constructor
      · rw [hMA r]
        by_cases hrr : r = rid
        · subst hrr
          rw [if_pos rfl]
          exact hsub q.1 hor.1
        · rw [if_neg hrr]
          exact hor.1
      · exact hIOmono q.1 r hor.2
  · -- socket.io room sets
    intro q hq
    rcases mem_of_mem_alistSet h4 hq with hqr | ⟨hqm, hqne⟩
    · subst hqr
      refine ⟨nodup_setAdd rid (Inv.ioSetOf_nodup ⟨h1, h2, h3, h4, h5, h6, h7⟩ sid), ?_⟩
      intro r hr
      rcases mem_setAdd.mp hr with rfl | hio
      · right
        rw [hSR sid, if_pos rfl]
        exact self_mem_setAdd _ r
      · rcases Inv.io_cases ⟨h1, h2, h3, h4, h5, h6, h7⟩ hio with hrc | hrs
        · exact .inl hrc
        · right
          exact hSRmono sid r hrs
    · have ho := h7 q hqm
      refine ⟨ho.1, ?_⟩
      intro r hr
      rcases ho.2 r hr with hrc | hrs
      · exact .inl hrc
      · right
        exact hSRmono q.1 r hrs

end ChatApp

namespace ChatApp

theorem joinState_eq {st : ServerState} {rid : String} {room : Room} (sid : String)
    (hr : alistGet st.activeRooms rid = some room) :
    joinState sid rid st =
      ⟨alistSet st.activeRooms rid { room with members := setAdd room.members sid },
       alistSet st.socketRooms sid (setAdd (sRoomsOf st sid) rid),
       st.roomMessages,
       alistSet st.ioRooms sid (setAdd (ioSetOf st sid) rid)⟩ := by
  unfold joinState
  have hr2 : alistGet (ioJoin sid rid st).activeRooms rid = some room := hr
  rw [addMember_eq rid sid hr2]
  rfl

theorem inv_joinState {st : ServerState} {rid : String} {room : Room} (sid : String)
    (hInv : Inv st) (hr : alistGet st.activeRooms rid = some room) :
    Inv (joinState sid rid st) := by
  rw [joinState_eq sid hr]
  apply inv_setRoomJoin hInv rid sid
  · exact nodup_setAdd sid (hInv.room_members_nodup hr)
  · exact self_mem_setAdd _ _
  · intro c hc
    unfold membersAt at hc
    rw [hr] at hc
    exact mem_setAdd_of_mem sid hc
  · intro c hc
    rcases mem_setAdd.mp hc with rfl | hcm
    · exact .inl rfl
    · right
      unfold membersAt
      rw [hr]
      exact hcm

theorem createState_eq (sid uid uname : String) (arg : Option String)
    (fid now : String) (st : ServerState) :
    createState sid uid uname arg fid now st =
      ⟨alistSet st.activeRooms fid
         ⟨jsTrim (jsOrStr arg (defaultRoomName uname)), [sid], uid, now⟩,
       alistSet st.socketRooms sid (setAdd (sRoomsOf st sid) fid),
       st.roomMessages,
       alistSet st.ioRooms sid (setAdd (ioSetOf st sid) fid)⟩ := by
  unfold createState
  rw [joinState_eq sid (alistGet_set_self st.activeRooms fid (createdRoom uid uname now arg))]
  simp [createdRoom, alistSet_set_self, setAdd, sRoomsOf, ioSetOf]

theorem inv_createState (sid uid uname : String) (arg : Option String)
    (fid now : String) {st : ServerState} (hInv : Inv st)
    (hfa : alistGet st.activeRooms fid = none) :
    Inv (createState sid uid uname arg fid now st) := by
  rw [createState_eq]
  apply inv_setRoomJoin hInv fid sid
  · exact List.nodup_singleton sid
  · exact List.mem_singleton_self sid
  · intro c hc
    unfold membersAt at hc
    rw [hfa] at hc
    cases hc
  · intro c hc
    rw [List.mem_singleton] at hc
    exact .inl hc

theorem inv_addMessage (rid : String) (m : Message) {st : ServerState}
    (hInv : Inv st) : Inv (addMessageToRoom rid m st) := by
  obtain ⟨h1, h2, h3, h4, h5, h6, h7⟩ := hInv
  exact ⟨h1, h2, nodup_keys_set _ _ h3, h4, h5, h6, h7⟩

theorem inv_create (hasAck : Bool) (sid uid uname : String) (arg : Option String)
    (fid now : String) {st : ServerState} (hInv : Inv st)
    (hfa : alistGet st.activeRooms fid = none) :
    Inv (createRoom none hasAck sid uid uname arg fid now st).st := by
  rw [createRoom_none_eq]
  exact inv_createState sid uid uname arg fid now hInv hfa

theorem inv_join (hasAck : Bool) (sid uname : String) (arg : JoinArg)
    {st : ServerState} (hInv : Inv st) :
    Inv (joinRoom none hasAck sid uname arg st).st := by
  cases ha : joinRoomIdOf arg with
  | none =>
    rw [joinRoom_invalid_eq hasAck sid uname arg st ha]
    exact hInv
  | some rid =>
    cases hr : alistGet st.activeRooms rid with
    | none =>
      rw [joinRoom_notfound_eq hasAck sid uname arg rid st ha hr]
      exact hInv
    | some room =>
      rw [joinRoom_success_eq hasAck sid uname arg rid room st ha hr]
      exact inv_joinState sid hInv hr

theorem inv_message (hasAck : Bool) (sid uid uname msgId now : String)
    (p : MsgPayload) {st : ServerState} (hInv : Inv st) :
    Inv (newMessage none hasAck sid uid uname msgId now p st).st := by
  by_cases hinv : msgRoomId p = none ∨ msgRoomId p = some ""
  · rw [newMessage_invalid_eq _ _ _ _ _ _ _ _ hinv]
    exact hInv
  · cases hrid : msgRoomId p with
    | none => exact absurd (Or.inl hrid) hinv
    | some rid =>
      have hne : rid ≠ "" := fun he => hinv (Or.inr (he ▸ hrid))
      by_cases hio : rid ∈ ioSetOf st sid
      · by_cases ht : msgText p = ""
        · rw [newMessage_empty_eq _ _ _ _ _ _ p rid _ hrid hne hio ht]
          exact hInv
        · rw [newMessage_success_eq _ _ _ _ _ _ p rid _ hrid hne hio ht]
          exact inv_addMessage rid _ hInv
      · rw [newMessage_notin_eq _ _ _ _ _ _ p rid _ hrid hne hio]
        exact hInv

end ChatApp

namespace ChatApp

theorem Inv.socketRooms_absent {st : ServerState} (hInv : Inv st) {sid : String}
    (hfresh : alistGet st.ioRooms sid = none) :
    alistGet st.socketRooms sid = none := by
  obtain ⟨h1, h2, h3, h4, h5, h6, h7⟩ := hInv
  cases hg : alistGet st.socketRooms sid with
  | none => rfl
  | some l =>
    have ho := h6 (sid, l) (alistGet_mem hg)
    obtain ⟨x, hx⟩ := List.exists_mem_of_ne_nil l ho.2.1
    have hxi := (ho.2.2 x hx).2
    unfold ioSetOf at hxi
    rw [hfresh] at hxi
    cases hxi

theorem inv_connect (sid : String) {st : ServerState} (hInv : Inv st)
    (hfresh : alistGet st.ioRooms sid = none) : Inv (connectSock sid st) := by
  have hsAbsent := hInv.socketRooms_absent hfresh
  obtain ⟨h1, h2, h3, h4, h5, h6, h7⟩ := hInv
  refine ⟨h1, h2, h3, nodup_keys_set _ _ h4, h5, ?_, ?_⟩
  · intro q hq
    have ho := h6 q hq
    have hqne : q.1 ≠ sid := by
      intro he
      rw [alistGet_eq_none_iff] at hsAbsent
      exact hsAbsent q hq he
    refine ⟨ho.1, ho.2.1, ?_⟩
    intro r hr
    refine ⟨(ho.2.2 r hr).1, ?_⟩
    show r ∈ ioSetOf (connectSock sid st) q.1
    unfold ioSetOf connectSock
    simp only [alistGet_set_ne _ _ _ _ hqne]
    exact (ho.2.2 r hr).2
  · intro q hq
    rcases mem_of_mem_alistSet h4 hq with hqr | ⟨hqm, hqne⟩
    · subst hqr
      refine ⟨List.nodup_singleton sid, ?_⟩
      intro r hr
      rw [List.mem_singleton] at hr
      exact .inl hr
    · have ho := h7 q hqm
      exact ⟨ho.1, fun r hr => ho.2 r hr⟩

theorem sTrans_get_ne {rid sid c : String} (s : AList (List String)) (h : c ≠ sid) :
    alistGet (sTrans rid sid s) c = alistGet s c := by
  unfold sTrans
  cases hg : alistGet s sid with
  | none => rfl
  | some l =>
    by_cases he : setDel l rid = [] <;>
      simp [he, alistGet_del_ne _ _ _ h, alistGet_set_ne _ _ _ _ h]

theorem nodup_keys_sTrans {rid sid : String} {s : AList (List String)}
    (h : (keysOf s).Nodup) : (keysOf (sTrans rid sid s)).Nodup := by
  unfold sTrans
  cases hg : alistGet s sid with
  | none => exact h
  | some l =>
    by_cases he : setDel l rid = []
    · simp only [he, reduceIte]
      exact nodup_keys_del sid h
    · simp only [he, reduceIte]
      exact nodup_keys_set _ _ h

theorem inv_ioLeave (sid rid : String) {st : ServerState} (hInv : Inv st)
    (hns : rid ∉ sRoomsOf st sid) : Inv (ioLeave sid rid st) := by
  obtain ⟨h1, h2, h3, h4, h5, h6, h7⟩ := hInv
  refine ⟨h1, h2, h3, nodup_keys_set _ _ h4, h5, ?_, ?_⟩
  · intro q hq
    have ho := h6 q hq
    refine ⟨ho.1, ho.2.1, ?_⟩
    intro r hr
    refine ⟨(ho.2.2 r hr).1, ?_⟩
    show r ∈ ioSetOf (ioLeave sid rid st) q.1
    unfold ioSetOf ioLeave
    by_cases hq1 : q.1 = sid
    · rw [hq1]
      simp only [alistGet_set_self, Option.getD_some]
      refine mem_setDel.mpr ⟨(hq1 ▸ (ho.2.2 r hr).2 : r ∈ ioSetOf st sid), ?_⟩
      intro he
      have hgq : alistGet st.socketRooms q.1 = some q.2 := alistGet_of_mem_nodup h2 hq
      have hrs : r ∈ sRoomsOf st q.1 := by
        unfold sRoomsOf
        rw [hgq]
        exact hr
      rw [← hq1] at hns
      exact hns (he ▸ hrs)
    · simp only [alistGet_set_ne _ _ _ _ hq1]
      exact (ho.2.2 r hr).2
  · intro q hq
    rcases mem_of_mem_alistSet h4 hq with hqr | ⟨hqm, hqne⟩
    · subst hqr
      refine ⟨nodup_setDel rid (Inv.ioSetOf_nodup ⟨h1, h2, h3, h4, h5, h6, h7⟩ sid), ?_⟩
      intro r hr
      have hrm := mem_setDel.mp hr
      rcases Inv.io_cases ⟨h1, h2, h3, h4, h5, h6, h7⟩ hrm.1 with hrc | hrs
      · exact .inl hrc
      · exact .inr hrs
    · have ho := h7 q hqm
      exact ⟨ho.1, fun r hr => ho.2 r hr⟩

end ChatApp

namespace ChatApp

theorem inv_leaveState (sid rid : String) {st : ServerState} (hInv : Inv st)
    (hsr : rid ∈ sRoomsOf st sid) : Inv (leaveState sid rid st) := by
  obtain ⟨l, hgl, hrl⟩ := sRoomsOf_entry hsr
  obtain ⟨room, hr, hsm⟩ := hInv.sRooms_room_exists hsr
  have hndl : l.Nodup := hInv.sRooms_nodup hgl
  have hLS : leaveState sid rid st
      = ⟨rmA rid sid st.activeRooms,
         rmS rid sid st.activeRooms st.socketRooms,
         rmM rid sid st.activeRooms st.roomMessages,
         alistSet st.ioRooms sid (setDel (ioSetOf st sid) rid)⟩ := by
    unfold leaveState
    rw [removeMember_components]
    rfl
  rw [hLS]
  set stN : ServerState := ⟨rmA rid sid st.activeRooms,
         rmS rid sid st.activeRooms st.socketRooms,
         rmM rid sid st.activeRooms st.roomMessages,
         alistSet st.ioRooms sid (setDel (ioSetOf st sid) rid)⟩ with hstN
  have hSrmS : stN.socketRooms = sTrans rid sid st.socketRooms := by
    rw [hstN]
    exact rmS_eq_some _ hr
  have hSRne : ∀ c, c ≠ sid → sRoomsOf stN c = sRoomsOf st c := by
    intro c hc
    unfold sRoomsOf
    rw [hSrmS, sTrans_get_ne _ hc]
  have hSRs : sRoomsOf stN sid = setDel l rid := by
    unfold sRoomsOf
    rw [hSrmS]
    exact sTrans_sRooms_self hgl
  have hIOne : ∀ c, c ≠ sid → ioSetOf stN c = ioSetOf st c := by
    intro c hc
    unfold ioSetOf
    rw [hstN]
    simp only [alistGet_set_ne _ _ _ _ hc]
  have hIOs : ioSetOf stN sid = setDel (ioSetOf st sid) rid := by
    unfold ioSetOf
    rw [hstN]
    simp only [alistGet_set_self, Option.getD_some]
    rfl
  have hI := hInv
  obtain ⟨h1, h2, h3, h4, h5, h6, h7⟩ := hI
  have hSRtrans : ∀ c r2, r2 ∈ sRoomsOf st c → r2 ≠ rid ∨ c ≠ sid → r2 ∈ sRoomsOf stN c := by
    intro c r2 hr2 hor
    by_cases hc : c = sid
    · rcases hor with hne | hne
      · rw [hc] at hr2
        rw [hc, hSRs]
        apply mem_setDel.mpr
        refine ⟨?_, hne⟩
        unfold sRoomsOf at hr2
        rw [hgl] at hr2
        exact hr2
      · exact absurd hc hne
    · rw [hSRne c hc]
      exact hr2
  by_cases hm : setDel room.members sid = []
  · -- the room is destroyed
    have hA : stN.activeRooms = alistDel st.activeRooms rid := by
      rw [hstN]
      exact rmA_eq_destroy hr hm
    have hM : stN.roomMessages = alistDel st.roomMessages rid := by
      rw [hstN]
      exact rmM_eq_destroy _ hr hm
    have hMAne : ∀ r2, r2 ≠ rid → membersAt stN r2 = membersAt st r2 := by
      intro r2 hne
      unfold membersAt
      rw [hA, alistGet_del_ne _ _ _ hne]
    have honly : ∀ c ∈ room.members, c = sid := setDel_all_eq hm
    refine ⟨?_, ?_, ?_, ?_, ?_, ?_, ?_⟩
    · rw [hA]
      exact nodup_keys_del rid h1
    · rw [hSrmS]
      exact nodup_keys_sTrans h2
    · rw [hM]
      exact nodup_keys_del rid h3
    · rw [hstN]
      exact nodup_keys_set _ _ h4
    · show ∀ p ∈ stN.activeRooms, _
      rw [hA]
      intro p hp
      have hpd := mem_alistDel.mp hp
      have ho := h5 p hpd.1
      refine ⟨ho.1, ho.2.1, ?_⟩
      intro c hc
      exact hSRtrans c p.1 (ho.2.2 c hc) (.inl hpd.2)
    · show ∀ q ∈ stN.socketRooms, _
      rw [hSrmS]
      unfold sTrans
      rw [hgl]
      by_cases he : setDel l rid = []
      · simp only [he, reduceIte]
        intro q hq
        have hqd := mem_alistDel.mp hq
        have ho := h6 q hqd.1
        refine ⟨ho.1, ho.2.1, ?_⟩
        intro r2 hr2
        have hor := ho.2.2 r2 hr2
        have hr2rid : r2 ≠ rid := by
          intro he2
          subst he2
          have := honly q.1 (by
            have := hor.1
            unfold membersAt at this
            rw [hr] at this
            exact this)
          exact hqd.2 this
        constructor
        · rw [hMAne r2 hr2rid]
          exact hor.1
        · by_cases hq1 : q.1 = sid
          · exact absurd hq1 hqd.2
          · rw [hIOne q.1 hq1]
            exact hor.2
      · simp only [he, reduceIte]
        intro q hq
        rcases mem_of_mem_alistSet h2 hq with hqr | ⟨hqm, hqne⟩
        · subst hqr
          refine ⟨nodup_setDel rid hndl, he, ?_⟩
          intro r2 hr2
          have hrd := mem_setDel.mp hr2
          have ho := h6 (sid, l) (alistGet_mem hgl)
          have hor := ho.2.2 r2 hrd.1
          constructor
          · rw [hMAne r2 hrd.2]
            exact hor.1
          · rw [hIOs]
            exact mem_setDel.mpr ⟨hor.2, hrd.2⟩
        · have ho := h6 q hqm
          refine ⟨ho.1, ho.2.1, ?_⟩
          intro r2 hr2
          have hor := ho.2.2 r2 hr2
          have hr2rid : r2 ≠ rid := by
            intro he2
            subst he2
            have := honly q.1 (by
              have := hor.1
              unfold membersAt at this
              rw [hr] at this
              exact this)
            exact hqne this
          constructor
          · rw [hMAne r2 hr2rid]
            exact hor.1
          · rw [hIOne q.1 hqne]
            exact hor.2
    · show ∀ q ∈ stN.ioRooms, _
      rw [hstN]
      intro q hq
      rcases mem_of_mem_alistSet h4 hq with hqr | ⟨hqm, hqne⟩
      · subst hqr
        refine ⟨nodup_setDel rid (hInv.ioSetOf_nodup sid), ?_⟩
        intro r2 hr2
        have hrd := mem_setDel.mp hr2
        rcases hInv.io_cases hrd.1 with hrc | hrs
        · exact .inl hrc
        · right
          exact hSRtrans sid r2 hrs (.inl hrd.2)
      · have ho := h7 q hqm
        refine ⟨ho.1, ?_⟩
        intro r2 hr2
        rcases ho.2 r2 hr2 with hrc | hrs
        · exact .inl hrc
        · right
          exact hSRtrans q.1 r2 hrs (.inr hqne)
  · -- the member is removed, the room stays
    have hA : stN.activeRooms
        = alistSet st.activeRooms rid { room with members := setDel room.members sid } := by
      rw [hstN]
      exact rmA_eq_keep hr hm
    have hMAne : ∀ r2, r2 ≠ rid → membersAt stN r2 = membersAt st r2 := by
      intro r2 hne
      unfold membersAt
      rw [hA, alistGet_set_ne _ _ _ _ hne]
    have hMAs : membersAt stN rid = setDel room.members sid := by
      unfold membersAt
      rw [hA]
      simp only [alistGet_set_self]
    have hM : stN.roomMessages = st.roomMessages := by
      rw [hstN]
      exact rmM_eq_keep _ hr hm
    refine ⟨?_, ?_, ?_, ?_, ?_, ?_, ?_⟩
    · rw [hA]
      exact nodup_keys_set _ _ h1
    · rw [hSrmS]
      exact nodup_keys_sTrans h2
    · rw [hM]
      exact h3
    · rw [hstN]
      exact nodup_keys_set _ _ h4
    · show ∀ p ∈ stN.activeRooms, _
      rw [hA]
      intro p hp
      rcases mem_of_mem_alistSet h1 hp with hpr | ⟨hpm, hpne⟩
      · subst hpr
        refine ⟨nodup_setDel sid (hInv.room_members_nodup hr), hm, ?_⟩
        intro c hc
        have hcd := mem_setDel.mp hc
        have horig := (h5 (rid, room) (alistGet_mem hr)).2.2 c hcd.1
        exact hSRtrans c rid horig (.inr hcd.2)
      · have ho := h5 p hpm
        refine ⟨ho.1, ho.2.1, ?_⟩
        intro c hc
        have horig := ho.2.2 c hc
        by_cases hcs : c = sid
        · subst hcs
          rw [hSRs]
          apply mem_setDel.mpr
          constructor
          · unfold sRoomsOf at horig
            rw [hgl] at horig
            exact horig
          · exact hpne
        · rw [hSRne c hcs]
          exact horig
    · show ∀ q ∈ stN.socketRooms, _
      rw [hSrmS]
      unfold sTrans
      rw [hgl]
      by_cases he : setDel l rid = []
      · simp only [he, reduceIte]
        intro q hq
        have hqd := mem_alistDel.mp hq
        have ho := h6 q hqd.1
        refine ⟨ho.1, ho.2.1, ?_⟩
        intro r2 hr2
        have hor := ho.2.2 r2 hr2
        constructor
        · by_cases hr2rid : r2 = rid
          · subst hr2rid
            rw [hMAs]
            apply mem_setDel.mpr
            refine ⟨?_, hqd.2⟩
            have := hor.1
            unfold membersAt at this
            rw [hr] at this
            exact this
          · rw [hMAne r2 hr2rid]
            exact hor.1
        · rw [hIOne q.1 hqd.2]
          exact hor.2
      · simp only [he, reduceIte]
        intro q hq
        rcases mem_of_mem_alistSet h2 hq with hqr | ⟨hqm, hqne⟩
        · subst hqr
          refine ⟨nodup_setDel rid hndl, he, ?_⟩
          intro r2 hr2
          have hrd := mem_setDel.mp hr2
          have ho := h6 (sid, l) (alistGet_mem hgl)
          have hor := ho.2.2 r2 hrd.1
          constructor
          · rw [hMAne r2 hrd.2]
            exact hor.1
          · rw [hIOs]
            exact mem_setDel.mpr ⟨hor.2, hrd.2⟩
        · have ho := h6 q hqm
          refine ⟨ho.1, ho.2.1, ?_⟩
          intro r2 hr2
          have hor := ho.2.2 r2 hr2
          constructor
          · by_cases hr2rid : r2 = rid
            · subst hr2rid
              rw [hMAs]
              apply mem_setDel.mpr
              refine ⟨?_, hqne⟩
              have := hor.1
              unfold membersAt at this
              rw [hr] at this
              exact this
            · rw [hMAne r2 hr2rid]
              exact hor.1
          · rw [hIOne q.1 hqne]
            exact hor.2
    · show ∀ q ∈ stN.ioRooms, _
      rw [hstN]
      intro q hq
      rcases mem_of_mem_alistSet h4 hq with hqr | ⟨hqm, hqne⟩
      · subst hqr
        refine ⟨nodup_setDel rid (hInv.ioSetOf_nodup sid), ?_⟩
        intro r2 hr2
        have hrd := mem_setDel.mp hr2
        rcases hInv.io_cases hrd.1 with hrc | hrs
        · exact .inl hrc
        · right
          exact hSRtrans sid r2 hrs (.inl hrd.2)
      · have ho := h7 q hqm
        refine ⟨ho.1, ?_⟩
        intro r2 hr2
        rcases ho.2 r2 hr2 with hrc | hrs
        · exact .inl hrc
        · right
          exact hSRtrans q.1 r2 hrs (.inr hqne)

end ChatApp

namespace ChatApp

theorem leaveState_components (sid rid : String) (st : ServerState) :
    leaveState sid rid st
      = ⟨rmA rid sid st.activeRooms,
         rmS rid sid st.activeRooms st.socketRooms,
         rmM rid sid st.activeRooms st.roomMessages,
         alistSet st.ioRooms sid (setDel (ioSetOf st sid) rid)⟩ := by
  unfold leaveState
  rw [removeMember_components]
  rfl

theorem removeMember_eq_leaveState (sid rid : String) (st : ServerState) :
    (removeMember rid sid st).1
      = { leaveState sid rid st with ioRooms := st.ioRooms } := by
  rw [removeMember_components, leaveState_components]

theorem foldRM_eq_foldLeave (sid : String) (rooms : List String) (st : ServerState) :
    foldRM sid rooms st = { foldLeave sid rooms st with ioRooms := st.ioRooms } := by
  induction rooms generalizing st with
  | nil => rfl
  | cons r rest ih =>
    rw [foldRM_cons, removeMember_eq_leaveState, foldRM_set_ioRooms, ih]
    rfl

theorem leaveState_sRooms (sid rid : String) {st : ServerState} (hInv : Inv st)
    (hsr : rid ∈ sRoomsOf st sid) :
    sRoomsOf (leaveState sid rid st) sid = setDel (sRoomsOf st sid) rid := by
  obtain ⟨l, hgl, hrl⟩ := sRoomsOf_entry hsr
  obtain ⟨room, hr, hsm⟩ := hInv.sRooms_room_exists hsr
  rw [leaveState_components]
  show (alistGet (rmS rid sid st.activeRooms st.socketRooms) sid).getD [] = _
  rw [rmS_eq_some _ hr, sTrans_sRooms_self hgl]
  simp [sRoomsOf, hgl]

theorem foldLeave_ioRooms_ne (sid : String) (rooms : List String) (st : ServerState)
    (c : String) (hc : c ≠ sid) :
    alistGet (foldLeave sid rooms st).ioRooms c = alistGet st.ioRooms c := by
  induction rooms generalizing st with
  | nil => rfl
  | cons r rest ih =>
    show alistGet (foldLeave sid rest (leaveState sid r st)).ioRooms c = _
    rw [ih, leaveState_components]
    exact alistGet_set_ne _ _ _ _ hc

theorem inv_foldLeave (sid : String) (rooms : List String) {st : ServerState}
    (hInv : Inv st) (hrooms : sRoomsOf st sid = rooms) (hnd : rooms.Nodup) :
    Inv (foldLeave sid rooms st) ∧ sRoomsOf (foldLeave sid rooms st) sid = [] := by
  induction rooms generalizing st with
  | nil => exact ⟨hInv, hrooms⟩
  | cons r rest ih =>
    have hsr : r ∈ sRoomsOf st sid := by
      rw [hrooms]
      exact List.mem_cons_self r rest
    have hI2 := inv_leaveState sid r hInv hsr
    have hS2 : sRoomsOf (leaveState sid r st) sid = rest := by
      rw [leaveState_sRooms sid r hInv hsr, hrooms]
      have hstep : setDel (r :: rest) r = setDel rest r := by simp [setDel]
      rw [hstep, setDel_eq_of_not_mem (List.nodup_cons.mp hnd).1]
    exact ih hI2 hS2 (List.nodup_cons.mp hnd).2

theorem inv_del_sock (sid : String) (io0 : AList (List String)) {stL : ServerState}
    (hInv : Inv stL) (hempty : sRoomsOf stL sid = [])
    (hnd0 : (keysOf io0).Nodup)
    (hio : ∀ c, c ≠ sid → alistGet io0 c = alistGet stL.ioRooms c) :
    Inv ⟨stL.activeRooms, alistDel stL.socketRooms sid,
         stL.roomMessages, alistDel io0 sid⟩ := by
  obtain ⟨h1, h2, h3, h4, h5, h6, h7⟩ := hInv
  set stD : ServerState := ⟨stL.activeRooms, alistDel stL.socketRooms sid,
         stL.roomMessages, alistDel io0 sid⟩ with hstD
  have hSR : ∀ c, c ≠ sid → sRoomsOf stD c = sRoomsOf stL c := by
    intro c hc
    unfold sRoomsOf
    rw [hstD]
    rw [alistGet_del_ne _ _ _ hc]
  have hMA : ∀ r, membersAt stD r = membersAt stL r := fun r => rfl
  have hIOf : ∀ c, c ≠ sid → ioSetOf stD c = ioSetOf stL c := by
    intro c hc
    unfold ioSetOf
    rw [hstD]
    rw [alistGet_del_ne _ _ _ hc, hio c hc]
  have hnos : ∀ p ∈ stL.activeRooms, sid ∉ p.2.members := by
    intro p hp hmem
    have hidx := (h5 p hp).2.2 sid hmem
    rw [hempty] at hidx
    cases hidx
  refine ⟨h1, nodup_keys_del sid h2, h3, nodup_keys_del sid hnd0, ?_, ?_, ?_⟩
  · intro p hp
    have hp' : p ∈ stL.activeRooms := hp
    have ho := h5 p hp'
    refine ⟨ho.1, ho.2.1, ?_⟩
    intro c hc
    have hcs : c ≠ sid := fun he => hnos p hp' (he ▸ hc)
    rw [hSR c hcs]
    exact ho.2.2 c hc
  · intro q hq
    have hq' : q ∈ alistDel stL.socketRooms sid := hq
    obtain ⟨hqm, hqne⟩ := mem_alistDel.mp hq'
    have ho := h6 q hqm
    refine ⟨ho.1, ho.2.1, ?_⟩
    intro r hr
    have hor := ho.2.2 r hr
    refine ⟨?_, ?_⟩
    · rw [hMA r]
      exact hor.1
    · rw [hIOf q.1 hqne]
      exact hor.2
  · intro q hq
    have hq' : q ∈ alistDel io0 sid := hq
    obtain ⟨hqm, hqne⟩ := mem_alistDel.mp hq'
    have hg0 : alistGet io0 q.1 = some q.2 := alistGet_of_mem_nodup hnd0 hqm
    have hgL : alistGet stL.ioRooms q.1 = some q.2 := by
      rw [← hio q.1 hqne]
      exact hg0
    have ho := h7 q (alistGet_mem hgL)
    refine ⟨ho.1, ?_⟩
    intro r hr
    rcases ho.2 r hr with hrc | hrs
    · exact .inl hrc
    · right
      rw [hSR q.1 hqne]
      exact hrs

theorem inv_leave (hasAck : Bool) (sid uname : String) (ridArg : Option String)
    {st : ServerState} (hInv : Inv st) :
    Inv (leaveRoom none hasAck sid uname ridArg st).st := by
  by_cases hcond : ridArg.getD "" = "" ∨ ridArg.getD "" ∉ ioSetOf st sid
  · rw [leaveRoom_notin_eq hasAck sid uname ridArg st hcond]
    exact hInv
  · cases ridArg with
    | none => exact absurd (Or.inl rfl) hcond
    | some rid =>
      have hcond2 : ¬(rid = "" ∨ rid ∉ ioSetOf st sid) := by
        simpa using hcond
      by_cases hsr : rid ∈ sRoomsOf st sid
      · rw [leaveRoom_member_st hasAck sid uname rid st hcond2]
        exact inv_leaveState sid rid hInv hsr
      · rw [leaveRoom_nonmember_st hasAck sid uname rid st hInv hcond2 hsr]
        exact inv_ioLeave sid rid hInv hsr

theorem inv_disconnect (sid uname : String) {st : ServerState} (hInv : Inv st) :
    Inv (disconnect sid uname st).1 := by
  have h4 : (keysOf st.ioRooms).Nodup := hInv.2.2.2.1
  have hnd : (sRoomsOf st sid).Nodup := hInv.sRoomsOf_nodup sid
  have hfl := inv_foldLeave sid (sRoomsOf st sid) hInv rfl hnd
  have hio : ∀ c, c ≠ sid →
      alistGet st.ioRooms c
        = alistGet (foldLeave sid (sRoomsOf st sid) st).ioRooms c :=
    fun c hc => (foldLeave_ioRooms_ne sid _ st c hc).symm
  rw [disconnect_st_eq]
  have hF : foldRM sid ((alistGet st.socketRooms sid).getD []) st
      = { foldLeave sid (sRoomsOf st sid) st with ioRooms := st.ioRooms } :=
    foldRM_eq_foldLeave sid (sRoomsOf st sid) st
  rw [hF]
  have hfin := inv_del_sock sid st.ioRooms hfl.1 hfl.2 h4 hio
  exact hfin

theorem reachable_inv {st : ServerState} (h : Reachable st) : Inv st := by
  induction h with
  | init => decide
  | connect st sid hR hfresh ih => exact inv_connect sid ih hfresh
  | create st hasAck sid uid uname fid now arg hR hfa hfm ih =>
    exact inv_create hasAck sid uid uname arg fid now ih hfa
  | join st hasAck sid uname arg hR ih => exact inv_join hasAck sid uname arg ih
  | leave st hasAck sid uname ridArg hR ih =>
    exact inv_leave hasAck sid uname ridArg ih
  | message st hasAck sid uid uname msgId now p hR ih =>
    exact inv_message hasAck sid uid uname msgId now p ih
  | disconnectStep st sid uname hR ih => exact inv_disconnect sid uname ih

theorem reachable_stW1 : Reachable stW1 := by
  have hA : Reachable stWA :=
    Reachable.connect emptyState "A" Reachable.init (by decide)
  exact Reachable.create stWA true "A" "u1" "Alice" "R1" "t0" none hA
    (by decide) (by decide)

theorem reachable_stW2 : Reachable stW2 := by
  have hB : Reachable stWB :=
    Reachable.connect stW1 "B" reachable_stW1 (by decide)
  exact Reachable.join stWB true "B" "Bob" (JoinArg.jstr "R1") hB

/-- C5: in every state reachable from the empty registry by complete
fault-free handler executions, membership is two-sided: a connection is
listed in a stored room record exactly when the room id is listed in
that connection's `socketRooms` reverse index. -/
theorem c5_two_sided_consistency {st : ServerState} (h : Reachable st) :
    ∀ rid room, alistGet st.activeRooms rid = some room →
      ∀ c, c ∈ room.members ↔ rid ∈ sRoomsOf st c := by
  have hInv := reachable_inv h
  intro rid room hr c
  constructor
  · intro hm
    exact hInv.mem_to_sRooms hr hm
  · intro hs
    have hm := hInv.sRooms_to_member hs
    unfold membersAt at hm
    rw [hr] at hm
    exact hm

theorem c5_two_sided_consistency_witness :
    ("B" ∈ roomW1.members ↔ "R1" ∈ sRoomsOf stW2 "B") :=
  c5_two_sided_consistency reachable_stW2 "R1" roomW1 (by decide) "B"

/-- C6: in every reachable (settled) state, a room is present in
`activeRooms` only with a non-empty member set, and a room id indexed
for some connection is always present in `activeRooms`. -/
theorem c6_room_existence {st : ServerState} (h : Reachable st) :
    (∀ rid room, alistGet st.activeRooms rid = some room → room.members ≠ []) ∧
    (∀ c rid, rid ∈ sRoomsOf st c →
      ∃ room, alistGet st.activeRooms rid = some room ∧ c ∈ room.members) := by
  have hInv := reachable_inv h
  refine ⟨?_, ?_⟩
  · intro rid room hr
    exact hInv.room_members_nonempty hr
  · intro c rid hrs
    exact hInv.sRooms_room_exists hrs

theorem c6_room_existence_witness :
    (∀ rid room, alistGet stW1.activeRooms rid = some room → room.members ≠ []) ∧
    (∀ c rid, rid ∈ sRoomsOf stW1 c →
      ∃ room, alistGet stW1.activeRooms rid = some room ∧ c ∈ room.members) :=
  c6_room_existence reachable_stW1

end ChatApp
